import Mathlib

/-
Verification development for the box_office repository.

This file gives a shallow embedding of the evaluation and feature-selection
helpers of src/code/model_utils.py and proves properties about them.
Floating-point numbers are modelled by exact numbers: table values and
predictions by rationals, the logarithmic DCG computation by real numbers.
The external scipy rank-correlation routines (spearmanr, kendalltau) are not
part of the repository; their results are modelled as opaque parameters
returning an optional real number (none standing for a non-finite result).
-/

/-! ### The DCG helper `_dcg`

Source (model_utils.py:365-369):
```
def _dcg(scores):
    if scores.size == 0:
        return 0.0
    discounts = np.log2(np.arange(2, scores.size + 2))
    return float(np.sum(scores / discounts))
```
`np.arange(2, n + 2)` is `[2, 3, ..., n + 1]`, so the element at 0-based
position `i` is divided by `log2(i + 2)`. -/

noncomputable def _dcg (scores : List ℝ) : ℝ :=
  if scores.length = 0 then 0
  else (List.zipWith (fun s d => s / d) scores
    ((List.range scores.length).map (fun i : ℕ => Real.logb 2 ((i : ℝ) + 2)))).sum

/-! ### The validation frame consumed by `compute_ranking_metrics`

`compute_ranking_metrics` reads exactly two columns of the pandas frame:
the title column and the target column.  A frame is therefore embedded as
those two columns (each cell optional, `none` standing for a missing value)
together with two flags recording whether the frame actually has columns of
those names (the source checks `title_col not in validation_frame.columns`). -/

structure ValidationFrame where
  hasTitleCol : Bool
  hasTargetCol : Bool
  rows : List (Option String × Option ℚ)

/-- Rows surviving `working.dropna(subset=[title_col, target_col])` after the
predictions are attached as an aligned column (model_utils.py:391-393). -/
def survivors (rows : List (Option String × Option ℚ)) (preds : List ℚ) :
    List (String × ℚ × ℚ) :=
  (rows.zip preds).filterMap (fun rp =>
    match rp.1.1, rp.1.2 with
    | some t, some y => some (t, y, rp.2)
    | _, _ => none)

/-- Descending comparison on the target (actual) value, used by
`working.sort_values(target_col, ascending=False)`. -/
def targetDescRel (a b : String × ℚ × ℚ) : Prop := b.2.1 ≤ a.2.1

/-- Descending comparison on the predicted value, used by
`working.sort_values('predicted', ascending=False)`. -/
def predDescRel (a b : String × ℚ × ℚ) : Prop := b.2.2 ≤ a.2.2

instance : DecidableRel targetDescRel := fun a b =>
  inferInstanceAs (Decidable (b.2.1 ≤ a.2.1))

instance : DecidableRel predDescRel := fun a b =>
  inferInstanceAs (Decidable (b.2.2 ≤ a.2.2))

instance : IsTotal (String × ℚ × ℚ) targetDescRel :=
  ⟨fun a b => le_total b.2.1 a.2.1⟩

instance : IsTrans (String × ℚ × ℚ) targetDescRel :=
  ⟨fun _ _ _ h1 h2 => le_trans h2 h1⟩

instance : IsTotal (String × ℚ × ℚ) predDescRel :=
  ⟨fun a b => le_total b.2.2 a.2.2⟩

instance : IsTrans (String × ℚ × ℚ) predDescRel :=
  ⟨fun _ _ _ h1 h2 => le_trans h2 h1⟩

/-- `actual_sorted = working.sort_values(target_col, ascending=False)`. -/
def actual_sorted (w : List (String × ℚ × ℚ)) : List (String × ℚ × ℚ) :=
  w.insertionSort targetDescRel

/-- `predicted_sorted = working.sort_values('predicted', ascending=False)`. -/
def predicted_sorted (w : List (String × ℚ × ℚ)) : List (String × ℚ × ℚ) :=
  w.insertionSort predDescRel

/-- `k_actual = min(k, len(actual_sorted))`. -/
def k_actual (w : List (String × ℚ × ℚ)) (k : ℕ) : ℕ :=
  min k (actual_sorted w).length

/-- `k_pred = min(k, len(predicted_sorted))`. -/
def k_pred (w : List (String × ℚ × ℚ)) (k : ℕ) : ℕ :=
  min k (predicted_sorted w).length

/-- `actual_top_titles = actual_sorted.head(k_actual)[title_col].tolist()`. -/
def actual_top_titles (w : List (String × ℚ × ℚ)) (k : ℕ) : List String :=
  ((actual_sorted w).take (k_actual w k)).map (fun r => r.1)

/-- `predicted_top_titles = predicted_sorted.head(k_pred)[title_col].tolist()`. -/
def predicted_top_titles (w : List (String × ℚ × ℚ)) (k : ℕ) : List String :=
  ((predicted_sorted w).take (k_pred w k)).map (fun r => r.1)

/-- `overlap = len(set(actual_top_titles) & set(predicted_top_titles))`:
the number of distinct titles occurring in both lists. -/
def overlap (w : List (String × ℚ × ℚ)) (k : ℕ) : ℕ :=
  ((actual_top_titles w k).dedup.filter
    (fun t => (predicted_top_titles w k).contains t)).length

/-- Maximum of a list of rationals (`np.nanmax`; the argument list is
non-empty on every reachable path). -/
def listMax : List ℚ → ℚ
  | [] => 0
  | a :: rest => rest.foldl max a

/-- The gain scale: `max_gain = nanmax(actual_gains)`, replaced by `1.0`
when not positive (model_utils.py:409-411). -/
def max_gain (w : List (String × ℚ × ℚ)) : ℚ :=
  if listMax ((actual_sorted w).map (fun r => r.2.1)) ≤ 0 then 1
  else listMax ((actual_sorted w).map (fun r => r.2.1))

/-- `pred_gains = predicted_sorted.head(k_pred)[target_col] / max_gain`. -/
def pred_gains (w : List (String × ℚ × ℚ)) (k : ℕ) : List ℚ :=
  ((predicted_sorted w).take (k_pred w k)).map (fun r => r.2.1 / max_gain w)

/-- `ideal_gains = actual_sorted.head(k_actual)[target_col] / max_gain`. -/
def ideal_gains (w : List (String × ℚ × ℚ)) (k : ℕ) : List ℚ :=
  ((actual_sorted w).take (k_actual w k)).map (fun r => r.2.1 / max_gain w)

/-- `dcg_pred = _dcg(pred_gains)`. -/
noncomputable def dcg_pred (w : List (String × ℚ × ℚ)) (k : ℕ) : ℝ :=
  _dcg ((pred_gains w k).map (fun q : ℚ => (q : ℝ)))

/-- `dcg_ideal = _dcg(ideal_gains)`. -/
noncomputable def dcg_ideal (w : List (String × ℚ × ℚ)) (k : ℕ) : ℝ :=
  _dcg ((ideal_gains w k).map (fun q : ℚ => (q : ℝ)))

/-- `ndcg = dcg_pred / dcg_ideal if dcg_ideal > 0 else np.nan`; the NaN case
is modelled as `none` (it is dropped by the final `np.isfinite` filter). -/
noncomputable def ndcg (w : List (String × ℚ × ℚ)) (k : ℕ) : Option ℝ :=
  if 0 < dcg_ideal w k then some (dcg_pred w k / dcg_ideal w k) else none

/-- `recall = overlap / k_actual if k_actual > 0 else np.nan`. -/
def recallOf (w : List (String × ℚ × ℚ)) (k : ℕ) : Option ℚ :=
  if 0 < k_actual w k then some ((overlap w k : ℚ) / (k_actual w k : ℚ)) else none

/-- `precision = overlap / k_pred if k_pred > 0 else np.nan`. -/
def precisionOf (w : List (String × ℚ × ℚ)) (k : ℕ) : Option ℚ :=
  if 0 < k_pred w k then some ((overlap w k : ℚ) / (k_pred w k : ℚ)) else none

/-- The guard `working[target_col].nunique() <= 1 or
working['predicted'].nunique() <= 1` (negated): both series must have at
least two distinct values for the rank correlations to be computed. -/
def corr_defined (w : List (String × ℚ × ℚ)) : Prop :=
  1 < (w.map (fun r => r.2.1)).dedup.length ∧
    1 < (w.map (fun r => r.2.2)).dedup.length

instance (w : List (String × ℚ × ℚ)) : Decidable (corr_defined w) := by
  unfold corr_defined; infer_instance

/-- The two series handed to `spearmanr` / `kendalltau`. -/
def corr_pairs (w : List (String × ℚ × ℚ)) : List (ℚ × ℚ) :=
  w.map (fun r => (r.2.1, r.2.2))

/-- The `metrics` dictionary of model_utils.py:434-441 before the final
`is not None` filter: each value is `none` exactly when the source stores
`None` (a non-finite or structurally inapplicable value). -/
noncomputable def rankingEntries (w : List (String × ℚ × ℚ)) (k : ℕ)
    (sfn kfn : List (ℚ × ℚ) → Option ℝ) : List (String × Option ℝ) :=
  [("top10_overlap", some ((overlap w k : ℕ) : ℝ)),
   ("recall_at_10", (recallOf w k).map (fun q : ℚ => (q : ℝ))),
   ("precision_at_10", (precisionOf w k).map (fun q : ℚ => (q : ℝ))),
   ("ndcg_at_10", ndcg w k),
   ("spearman_corr", if corr_defined w then sfn (corr_pairs w) else none),
   ("kendall_corr", if corr_defined w then kfn (corr_pairs w) else none)]

/-- The final dictionary comprehension
`{key: value for key, value in metrics.items() if value is not None}`:
entries whose value is `none` are dropped. -/
noncomputable def metricsMap (w : List (String × ℚ × ℚ)) (k : ℕ)
    (sfn kfn : List (ℚ × ℚ) → Option ℝ) : List (String × ℝ) :=
  (rankingEntries w k sfn kfn).filterMap (fun e => e.2.map (fun v => (e.1, v)))

/-- Embedding of `compute_ranking_metrics` (model_utils.py:372-443).
The returned dictionary is modelled as an association list; the final
comprehension `{key: value for ... if value is not None}` becomes a
`filterMap` dropping the `none` entries. -/
noncomputable def compute_ranking_metrics (validation_frame : Option ValidationFrame)
    (predictions : Option (List ℚ)) (k : ℕ)
    (sfn kfn : List (ℚ × ℚ) → Option ℝ) : List (String × ℝ) :=
  match validation_frame, predictions with
  | none, _ => []
  | some _, none => []
  | some vf, some preds =>
    if ¬ (vf.hasTitleCol = true ∧ vf.hasTargetCol = true) then []
    else if preds.length ≠ vf.rows.length then []
    else if survivors vf.rows preds = [] then []
    else metricsMap (survivors vf.rows preds) k sfn kfn

/-! ### Arithmetic facts about the logarithmic discounts -/

theorem logb_two_two : Real.logb 2 2 = 1 :=
  Real.logb_self_eq_one (by norm_num)

theorem one_lt_logb_two_three : 1 < Real.logb 2 3 := by
  have h := Real.logb_lt_logb (b := 2) (by norm_num) (by norm_num)
    (show (2 : ℝ) < 3 by norm_num)
  rwa [logb_two_two] at h

theorem logb_discount_pos (i : ℕ) : 0 < Real.logb 2 ((i : ℝ) + 2) := by
  apply Real.logb_pos (by norm_num)
  have : (0 : ℝ) ≤ (i : ℝ) := Nat.cast_nonneg i
  linarith

theorem one_le_logb_discount (i : ℕ) : 1 ≤ Real.logb 2 ((i : ℝ) + 2) := by
  have h2 : (0 : ℝ) < 2 := by norm_num
  have hle : (2 : ℝ) ≤ (i : ℝ) + 2 := by
    have : (0 : ℝ) ≤ (i : ℝ) := Nat.cast_nonneg i
    linarith
  have := Real.logb_le_logb_of_le (b := 2) (by norm_num) h2 hle
  rwa [logb_two_two] at this

theorem logb_discount_mono (i : ℕ) :
    Real.logb 2 ((i : ℝ) + 2) ≤ Real.logb 2 ((i : ℝ) + 1 + 2) := by
  apply Real.logb_le_logb_of_le (by norm_num)
  · have : (0 : ℝ) ≤ (i : ℝ) := Nat.cast_nonneg i
    linarith
  · linarith

/-! ### The closed form of `_dcg` -/

theorem zipWith_div_range_sum (l : List ℝ) (g : ℕ → ℝ) :
    (List.zipWith (fun s d => s / d) l ((List.range l.length).map g)).sum
      = ∑ i in Finset.range l.length, l.getD i 0 / g i := by
  induction l generalizing g with
  | nil => simp
  | cons a l ih =>
    rw [List.length_cons, List.range_succ_eq_map, List.map_cons, List.map_map,
      List.zipWith_cons_cons, List.sum_cons, Finset.sum_range_succ']
    have hmaps : (List.map (g ∘ Nat.succ) (List.range l.length))
        = (List.range l.length).map (fun i => g (i + 1)) := by
      simp [Function.comp]
    rw [hmaps, ih (fun i => g (i + 1))]
    simp [add_comm]

theorem dcg_eq_sum (scores : List ℝ) :
    _dcg scores
      = ∑ i in Finset.range scores.length, scores.getD i 0 / Real.logb 2 ((i : ℝ) + 2) := by
  unfold _dcg
  by_cases h : scores.length = 0
  · simp [h]
  · rw [if_neg h, zipWith_div_range_sum]

theorem dcg_nil : _dcg [] = 0 := by
  simp [_dcg]

theorem dcg_singleton (a : ℝ) : _dcg [a] = a := by
  rw [dcg_eq_sum]
  simp [logb_two_two]

theorem dcg_pair (a b : ℝ) : _dcg [a, b] = a + b / Real.logb 2 3 := by
  rw [dcg_eq_sum]
  norm_num [Finset.sum_range_succ, List.getD_cons_zero, List.getD_cons_succ, logb_two_two]

/-- C1. The DCG helper does NOT discount position 1 by `log2(3)`: on the
gain sequence `[1]` it returns `1 / log2(2) = 1`, not the claimed
`1 / log2(1 + 2) = 1 / log2(3)`. -/
theorem dcg_singleton_counterexample : ¬ (_dcg [(1 : ℝ)] = 1 / Real.logb 2 (1 + 2)) := by
  rw [dcg_singleton]
  intro h
  have h3 : (1 : ℝ) < Real.logb 2 3 := one_lt_logb_two_three
  have hpos : (0 : ℝ) < Real.logb 2 3 := lt_trans one_pos h3
  have : 1 / Real.logb 2 3 < 1 := by
    rw [div_lt_one hpos]; exact h3
  rw [show ((1 : ℝ) + 2) = 3 by norm_num] at h
  linarith [h.symm ▸ this]

/-- C1 (amended). The DCG helper computes, for every gain sequence
`g_0..g_(n-1)` (0-indexed), the value `sum(g_i / log2(i + 2))`, so the FIRST
position is discounted by `log2(2) = 1` (the claimed `log2(3)` divisor
belongs to the second position); for the empty sequence it returns 0. -/
theorem dcg_formula_amended (scores : List ℝ) :
    _dcg scores
        = ∑ i in Finset.range scores.length, scores.getD i 0 / Real.logb 2 ((i : ℝ) + 2)
      ∧ _dcg [] = 0
      ∧ Real.logb 2 ((0 : ℝ) + 2) = 1 := by
  refine ⟨dcg_eq_sum scores, dcg_nil, ?_⟩
  rw [show ((0 : ℝ) + 2) = 2 by norm_num, logb_two_two]

/-! ### Dominance lemmas for the DCG comparison -/

theorem abel_nonneg (d w : ℕ → ℝ) (h0 : d 0 = 0) (hd : ∀ t, 0 ≤ d t)
    (hw : ∀ i, 0 ≤ w i) (hwa : ∀ i, w (i + 1) ≤ w i) (m : ℕ) :
    d m * w m ≤ ∑ i in Finset.range m, (d (i + 1) - d i) * w i := by
  induction m with
  | zero => simp [h0]
  | succ m ih =>
    rw [Finset.sum_range_succ]
    have h1 : d (m + 1) * w (m + 1) ≤ d (m + 1) * w m :=
      mul_le_mul_of_nonneg_left (hwa m) (hd (m + 1))
    have h2 : d (m + 1) * w m = d m * w m + (d (m + 1) - d m) * w m := by ring
    linarith

theorem take_sum_getD {α : Type} [AddCommMonoid α] (l : List α) (i : ℕ)
    (h : i < l.length) : (l.take (i + 1)).sum = (l.take i).sum + l.getD i 0 := by
  rw [List.sum_take_succ _ _ h, List.getD_eq_getElem l 0 h]

theorem dcg_le_of_prefix_sums (p q : List ℝ) (hlen : p.length = q.length)
    (hpre : ∀ t, (p.take t).sum ≤ (q.take t).sum) : _dcg p ≤ _dcg q := by
  rw [dcg_eq_sum, dcg_eq_sum, ← hlen]
  have hw : ∀ i : ℕ, 0 ≤ 1 / Real.logb 2 ((i : ℝ) + 2) := fun i =>
    le_of_lt (one_div_pos.mpr (logb_discount_pos i))
  have hwa : ∀ i : ℕ, 1 / Real.logb 2 (((i + 1 : ℕ) : ℝ) + 2)
      ≤ 1 / Real.logb 2 ((i : ℝ) + 2) := by
    intro i
    apply one_div_le_one_div_of_le (logb_discount_pos i)
    have := logb_discount_mono i
    push_cast
    linarith
  have key := abel_nonneg (fun t => (q.take t).sum - (p.take t).sum)
    (fun i => 1 / Real.logb 2 ((i : ℝ) + 2)) (by simp)
    (fun t => sub_nonneg.mpr (hpre t)) hw hwa p.length
  have hnn : 0 ≤ ((q.take p.length).sum - (p.take p.length).sum)
      * (1 / Real.logb 2 ((p.length : ℝ) + 2)) :=
    mul_nonneg (sub_nonneg.mpr (hpre p.length)) (hw p.length)
  have key2 : 0 ≤ ∑ i in Finset.range p.length,
      (q.getD i 0 - p.getD i 0) * (1 / Real.logb 2 ((i : ℝ) + 2)) := by
    refine le_trans hnn (le_trans key (le_of_eq ?_))
    apply Finset.sum_congr rfl
    intro i hi
    have hip : i < p.length := Finset.mem_range.mp hi
    have hiq : i < q.length := hlen ▸ hip
    rw [take_sum_getD p i hip, take_sum_getD q i hiq]
    ring
  have hfinal : ∑ i in Finset.range p.length, p.getD i 0 * (1 / Real.logb 2 ((i : ℝ) + 2))
      ≤ ∑ i in Finset.range p.length, q.getD i 0 * (1 / Real.logb 2 ((i : ℝ) + 2)) := by
    have hdist : ∑ i in Finset.range p.length,
        (q.getD i 0 - p.getD i 0) * (1 / Real.logb 2 ((i : ℝ) + 2))
        = (∑ i in Finset.range p.length, q.getD i 0 * (1 / Real.logb 2 ((i : ℝ) + 2)))
          - ∑ i in Finset.range p.length, p.getD i 0 * (1 / Real.logb 2 ((i : ℝ) + 2)) := by
      rw [← Finset.sum_sub_distrib]
      apply Finset.sum_congr rfl
      intro i _
      ring
    linarith [hdist ▸ key2]
  calc ∑ i in Finset.range p.length, p.getD i 0 / Real.logb 2 ((i : ℝ) + 2)
      = ∑ i in Finset.range p.length, p.getD i 0 * (1 / Real.logb 2 ((i : ℝ) + 2)) := by
        apply Finset.sum_congr rfl; intro i _; rw [div_eq_mul_one_div]
    _ ≤ ∑ i in Finset.range p.length, q.getD i 0 * (1 / Real.logb 2 ((i : ℝ) + 2)) := hfinal
    _ = ∑ i in Finset.range p.length, q.getD i 0 / Real.logb 2 ((i : ℝ) + 2) := by
        apply Finset.sum_congr rfl; intro i _; rw [← div_eq_mul_one_div]

/-! ### Sum of a sub(-perm)-list against the top of a descending-sorted list -/

theorem sum_le_take_of_sublist_sorted : ∀ {s M : List ℚ}, List.Sublist s M →
    M.Sorted (fun a b => b ≤ a) → s.sum ≤ (M.take s.length).sum := by
  intro s M h
  induction h with
  | slnil => simp
  | @cons l1 l2 a h ih =>
    intro hM
    rw [List.sorted_cons] at hM
    obtain ⟨ha, hM2⟩ := hM
    have hIH := ih hM2
    cases hn : l1.length with
    | zero =>
      have hnil : l1 = [] := List.length_eq_zero.mp hn
      simp [hnil]
    | succ m =>
      rw [hn] at hIH
      rw [List.take_succ_cons, List.sum_cons]
      have hm : m < l2.length := by
        have hle := h.length_le
        omega
      have hstep : (l2.take (m + 1)).sum = (l2.take m).sum + l2.getD m 0 :=
        take_sum_getD l2 m hm
      have hmem : l2.getD m 0 ∈ l2 := by
        rw [List.getD_eq_getElem _ _ hm]
        exact List.getElem_mem hm
      have hle2 : l2.getD m 0 ≤ a := ha _ hmem
      calc l1.sum ≤ (l2.take (m + 1)).sum := hIH
        _ = (l2.take m).sum + l2.getD m 0 := hstep
        _ ≤ a + (l2.take m).sum := by linarith
  | @cons₂ l1 l2 a h ih =>
    intro hM
    rw [List.sorted_cons] at hM
    obtain ⟨_, hM2⟩ := hM
    have hIH := ih hM2
    rw [List.length_cons, List.take_succ_cons, List.sum_cons, List.sum_cons]
    linarith

theorem sum_le_take_of_subperm_sorted {s M : List ℚ} (h : List.Subperm s M)
    (hM : M.Sorted (fun a b => b ≤ a)) : s.sum ≤ (M.take s.length).sum := by
  obtain ⟨u, hperm, hsub⟩ := h
  calc s.sum = u.sum := hperm.sum_eq.symm
    _ ≤ (M.take u.length).sum := sum_le_take_of_sublist_sorted hsub hM
    _ = (M.take s.length).sum := by rw [hperm.length_eq]

/-! ### The ideal gains dominate the predicted gains -/

/-- All survivor target values, in the actual (descending) order, scaled by
`max_gain`: the list whose `take k_actual` is `ideal_gains`. -/
def scaled_gains (w : List (String × ℚ × ℚ)) : List ℚ :=
  (actual_sorted w).map (fun r => r.2.1 / max_gain w)

theorem max_gain_pos (w : List (String × ℚ × ℚ)) : 0 < max_gain w := by
  unfold max_gain
  split_ifs with h
  · norm_num
  · exact lt_of_not_le h

theorem scaled_gains_sorted (w : List (String × ℚ × ℚ)) :
    (scaled_gains w).Sorted (fun a b => b ≤ a) := by
  have hs : (actual_sorted w).Sorted targetDescRel :=
    List.sorted_insertionSort targetDescRel w
  unfold scaled_gains
  refine List.Pairwise.map _ ?_ hs
  intro a b hab
  exact (div_le_div_iff_of_pos_right (max_gain_pos w)).mpr hab

theorem ideal_gains_eq (w : List (String × ℚ × ℚ)) (k : ℕ) :
    ideal_gains w k = (scaled_gains w).take (k_actual w k) := by
  unfold ideal_gains scaled_gains
  rw [List.map_take]

theorem k_pred_eq_k_actual (w : List (String × ℚ × ℚ)) (k : ℕ) :
    k_pred w k = k_actual w k := by
  unfold k_pred k_actual actual_sorted predicted_sorted
  rw [List.length_insertionSort, List.length_insertionSort]

theorem pred_gains_length (w : List (String × ℚ × ℚ)) (k : ℕ) :
    (pred_gains w k).length = k_pred w k := by
  unfold pred_gains k_pred
  rw [List.length_map, List.length_take]
  omega

theorem ideal_gains_length (w : List (String × ℚ × ℚ)) (k : ℕ) :
    (ideal_gains w k).length = k_actual w k := by
  unfold ideal_gains k_actual
  rw [List.length_map, List.length_take]
  omega

theorem pred_gains_take_subperm (w : List (String × ℚ × ℚ)) (k t : ℕ) :
    List.Subperm ((pred_gains w k).take t) (scaled_gains w) := by
  unfold pred_gains scaled_gains
  rw [← List.map_take, List.take_take]
  have hsub : List.Sublist ((predicted_sorted w).take (min t (k_pred w k)))
      (predicted_sorted w) :=
    List.take_sublist _ _
  have hperm : List.Perm (predicted_sorted w) (actual_sorted w) :=
    (List.perm_insertionSort _ w).trans (List.perm_insertionSort _ w).symm
  exact ((hsub.map _).subperm).trans (hperm.map _).subperm

theorem pred_prefix_le (w : List (String × ℚ × ℚ)) (k t : ℕ) :
    ((pred_gains w k).take t).sum ≤ ((ideal_gains w k).take t).sum := by
  have h1 := sum_le_take_of_subperm_sorted (pred_gains_take_subperm w k t)
    (scaled_gains_sorted w)
  rw [ideal_gains_eq, List.take_take]
  have hl : ((pred_gains w k).take t).length = min t (k_actual w k) := by
    rw [List.length_take, pred_gains_length, k_pred_eq_k_actual]
  rw [hl] at h1
  exact h1

theorem dcg_pred_le_dcg_ideal (w : List (String × ℚ × ℚ)) (k : ℕ) :
    dcg_pred w k ≤ dcg_ideal w k := by
  unfold dcg_pred dcg_ideal
  apply dcg_le_of_prefix_sums
  · rw [List.length_map, List.length_map, pred_gains_length, ideal_gains_length,
      k_pred_eq_k_actual]
  · intro t
    rw [← List.map_take, ← List.map_take, ← Rat.cast_list_sum, ← Rat.cast_list_sum]
    exact_mod_cast pred_prefix_le w k t

/-! ### Extraction lemmas for the returned metrics mapping -/

theorem compute_main_path (vf : ValidationFrame) (preds : List ℚ) (k : ℕ)
    (sfn kfn : List (ℚ × ℚ) → Option ℝ)
    (ht : vf.hasTitleCol = true) (htg : vf.hasTargetCol = true)
    (hlen : preds.length = vf.rows.length) (hw : survivors vf.rows preds ≠ []) :
    compute_ranking_metrics (some vf) (some preds) k sfn kfn
      = metricsMap (survivors vf.rows preds) k sfn kfn := by
  simp only [compute_ranking_metrics]
  rw [if_neg (by simp [ht, htg]), if_neg (by simp [hlen]), if_neg hw]

theorem mem_compute_elim (vf : ValidationFrame) (preds : List ℚ) (k : ℕ)
    (sfn kfn : List (ℚ × ℚ) → Option ℝ) (s : String) (v : ℝ)
    (h : (s, v) ∈ compute_ranking_metrics (some vf) (some preds) k sfn kfn) :
    (s, v) ∈ metricsMap (survivors vf.rows preds) k sfn kfn := by
  simp only [compute_ranking_metrics] at h
  by_cases h1 : vf.hasTitleCol = true ∧ vf.hasTargetCol = true
  · rw [if_neg (by simp [h1.1, h1.2])] at h
    by_cases h2 : preds.length = vf.rows.length
    · rw [if_neg (by simp [h2])] at h
      by_cases h3 : survivors vf.rows preds = []
      · rw [if_pos h3] at h
        simp at h
      · rwa [if_neg h3] at h
    · rw [if_pos h2] at h
      simp at h
  · rw [if_pos h1] at h
    simp at h

theorem mem_metricsMap_iff (w : List (String × ℚ × ℚ)) (k : ℕ)
    (sfn kfn : List (ℚ × ℚ) → Option ℝ) (s : String) (v : ℝ) :
    (s, v) ∈ metricsMap w k sfn kfn ↔
      ∃ o : Option ℝ, (s, o) ∈ rankingEntries w k sfn kfn ∧ o = some v := by
  unfold metricsMap
  rw [List.mem_filterMap]
  constructor
  · rintro ⟨e, he, hmap⟩
    rcases Option.map_eq_some'.mp hmap with ⟨u, hu, huv⟩
    refine ⟨e.2, ?_, ?_⟩
    · have : e = (s, e.2) := by
        cases e
        simp only [Prod.mk.injEq] at huv
        simp [huv.1.symm]
      rwa [this] at he
    · rw [hu]
      simp only [Prod.mk.injEq] at huv
      rw [huv.2]
  · rintro ⟨o, ho, rfl⟩
    exact ⟨(s, some v), ho, rfl⟩

theorem ndcg_mem_iff (w : List (String × ℚ × ℚ)) (k : ℕ)
    (sfn kfn : List (ℚ × ℚ) → Option ℝ) (v : ℝ) :
    ("ndcg_at_10", v) ∈ metricsMap w k sfn kfn ↔ ndcg w k = some v := by
  rw [mem_metricsMap_iff]
  constructor
  · rintro ⟨o, ho, rfl⟩
    unfold rankingEntries at ho
    simp only [List.mem_cons, List.not_mem_nil, or_false, Prod.mk.injEq] at ho
    rcases ho with h | h | h | h | h | h <;> simp_all
  · intro h
    exact ⟨some v, by unfold rankingEntries; simp [← h], rfl⟩

theorem recall_mem_iff (w : List (String × ℚ × ℚ)) (k : ℕ)
    (sfn kfn : List (ℚ × ℚ) → Option ℝ) (v : ℝ) :
    ("recall_at_10", v) ∈ metricsMap w k sfn kfn ↔
      ∃ q : ℚ, recallOf w k = some q ∧ v = (q : ℝ) := by
  rw [mem_metricsMap_iff]
  constructor
  · rintro ⟨o, ho, rfl⟩
    unfold rankingEntries at ho
    simp only [List.mem_cons, List.not_mem_nil, or_false, Prod.mk.injEq] at ho
    rcases ho with h | h | h | h | h | h <;> simp_all
    rcases Option.map_eq_some'.mp h.symm with ⟨q, hq, hqv⟩
    exact ⟨q, hq, hqv.symm⟩
  · rintro ⟨q, hq, rfl⟩
    refine ⟨some (q : ℝ), by unfold rankingEntries; simp [hq], rfl⟩

theorem precision_mem_iff (w : List (String × ℚ × ℚ)) (k : ℕ)
    (sfn kfn : List (ℚ × ℚ) → Option ℝ) (v : ℝ) :
    ("precision_at_10", v) ∈ metricsMap w k sfn kfn ↔
      ∃ q : ℚ, precisionOf w k = some q ∧ v = (q : ℝ) := by
  rw [mem_metricsMap_iff]
  constructor
  · rintro ⟨o, ho, rfl⟩
    unfold rankingEntries at ho
    simp only [List.mem_cons, List.not_mem_nil, or_false, Prod.mk.injEq] at ho
    rcases ho with h | h | h | h | h | h <;> simp_all
    rcases Option.map_eq_some'.mp h.symm with ⟨q, hq, hqv⟩
    exact ⟨q, hq, hqv.symm⟩
  · rintro ⟨q, hq, rfl⟩
    refine ⟨some (q : ℝ), by unfold rankingEntries; simp [hq], rfl⟩

theorem top10_mem_iff (w : List (String × ℚ × ℚ)) (k : ℕ)
    (sfn kfn : List (ℚ × ℚ) → Option ℝ) (v : ℝ) :
    ("top10_overlap", v) ∈ metricsMap w k sfn kfn ↔ v = ((overlap w k : ℕ) : ℝ) := by
  rw [mem_metricsMap_iff]
  constructor
  · rintro ⟨o, ho, rfl⟩
    unfold rankingEntries at ho
    simp only [List.mem_cons, List.not_mem_nil, or_false, Prod.mk.injEq] at ho
    rcases ho with h | h | h | h | h | h <;> simp_all
  · rintro rfl
    exact ⟨some ((overlap w k : ℕ) : ℝ), by unfold rankingEntries; simp, rfl⟩

theorem spearman_mem_iff (w : List (String × ℚ × ℚ)) (k : ℕ)
    (sfn kfn : List (ℚ × ℚ) → Option ℝ) (v : ℝ) :
    ("spearman_corr", v) ∈ metricsMap w k sfn kfn ↔
      (corr_defined w ∧ sfn (corr_pairs w) = some v) := by
  rw [mem_metricsMap_iff]
  constructor
  · rintro ⟨o, ho, rfl⟩
    unfold rankingEntries at ho
    simp only [List.mem_cons, List.not_mem_nil, or_false, Prod.mk.injEq] at ho
    rcases ho with h | h | h | h | h | h <;> simp_all
  · rintro ⟨hc, hval⟩
    exact ⟨some v, by unfold rankingEntries; simp [if_pos hc, hval], rfl⟩

theorem kendall_mem_iff (w : List (String × ℚ × ℚ)) (k : ℕ)
    (sfn kfn : List (ℚ × ℚ) → Option ℝ) (v : ℝ) :
    ("kendall_corr", v) ∈ metricsMap w k sfn kfn ↔
      (corr_defined w ∧ kfn (corr_pairs w) = some v) := by
  rw [mem_metricsMap_iff]
  constructor
  · rintro ⟨o, ho, rfl⟩
    unfold rankingEntries at ho
    simp only [List.mem_cons, List.not_mem_nil, or_false, Prod.mk.injEq] at ho
    rcases ho with h | h | h | h | h | h <;> simp_all
  · rintro ⟨hc, hval⟩
    exact ⟨some v, by unfold rankingEntries; simp [if_pos hc, hval], rfl⟩

theorem ndcg_some_iff (w : List (String × ℚ × ℚ)) (k : ℕ) (v : ℝ) :
    ndcg w k = some v ↔ 0 < dcg_ideal w k ∧ v = dcg_pred w k / dcg_ideal w k := by
  unfold ndcg
  split_ifs with h <;> simp [h, eq_comm]

theorem dcg_nonneg (l : List ℝ) (h : ∀ x ∈ l, 0 ≤ x) : 0 ≤ _dcg l := by
  rw [dcg_eq_sum]
  apply Finset.sum_nonneg
  intro i hi
  have hlen : i < l.length := Finset.mem_range.mp hi
  apply div_nonneg
  · exact h _ (by rw [List.getD_eq_getElem _ _ hlen]; exact List.getElem_mem hlen)
  · exact (logb_discount_pos i).le

/-- C2 (amended). Whenever `compute_ranking_metrics` defines `ndcg_at_10`
(i.e. `dcg_ideal > 0` over the surviving rows) its value is at most 1; it lies
in `[0, 1]` under the additional hypothesis that every surviving target value
is nonnegative (the original claim fails for negative targets, see the
counterexample); and when the predicted ordering of the surviving rows exactly
matches the actual ordering, its value is exactly 1. -/
theorem ndcg_bounds_amended (vf : ValidationFrame) (preds : List ℚ) (k : ℕ)
    (sfn kfn : List (ℚ × ℚ) → Option ℝ) (v : ℝ)
    (hv : ("ndcg_at_10", v) ∈ compute_ranking_metrics (some vf) (some preds) k sfn kfn) :
    v ≤ 1
      ∧ ((∀ r ∈ survivors vf.rows preds, 0 ≤ r.2.1) → 0 ≤ v)
      ∧ (predicted_sorted (survivors vf.rows preds) = actual_sorted (survivors vf.rows preds)
          → v = 1) := by
  have h1 := mem_compute_elim _ _ _ _ _ _ _ hv
  rw [ndcg_mem_iff, ndcg_some_iff] at h1
  obtain ⟨hpos, rfl⟩ := h1
  refine ⟨?_, ?_, ?_⟩
  · rw [div_le_one hpos]
    exact dcg_pred_le_dcg_ideal _ _
  · intro hnn
    apply div_nonneg _ hpos.le
    unfold dcg_pred
    apply dcg_nonneg
    intro x hx
    rcases List.mem_map.mp hx with ⟨q, hq, rfl⟩
    unfold pred_gains at hq
    rcases List.mem_map.mp hq with ⟨r, hr, rfl⟩
    have h2 : r ∈ predicted_sorted (survivors vf.rows preds) := List.mem_of_mem_take hr
    have h3 : r ∈ survivors vf.rows preds := by
      unfold predicted_sorted at h2
      exact (List.mem_insertionSort _).mp h2
    have h0 : (0 : ℚ) ≤ r.2.1 / max_gain (survivors vf.rows preds) :=
      div_nonneg (hnn _ h3) (max_gain_pos _).le
    exact_mod_cast h0
  · intro heq
    have hpg : pred_gains (survivors vf.rows preds) k = ideal_gains (survivors vf.rows preds) k := by
      unfold pred_gains ideal_gains
      rw [heq, k_pred_eq_k_actual]
    unfold dcg_pred
    rw [hpg]
    show dcg_ideal _ k / dcg_ideal _ k = 1
    exact div_self (ne_of_gt hpos)

/-- C2 (counterexample). On the two-row table with titles `A`, `B`, targets
`100`, `-100` and predictions `0`, `1` (so the predicted order inverts the
actual order), `compute_ranking_metrics` stores `ndcg_at_10 = -1`, a defined
value outside `[0, 1]`: the claim that `ndcg_at_10` always lies in `[0, 1]`
whenever it is defined is false. -/
theorem ndcg_negative_counterexample :
    ("ndcg_at_10", (-1 : ℝ)) ∈ compute_ranking_metrics
        (some ⟨true, true, [(some "A", some 100), (some "B", some (-100))]⟩)
        (some [0, 1]) 10 (fun _ => none) (fun _ => none)
      ∧ ¬ (0 ≤ (-1 : ℝ) ∧ (-1 : ℝ) ≤ 1) := by
  have hsurv : survivors
      (⟨true, true, [(some "A", some 100), (some "B", some (-100))]⟩ :
        ValidationFrame).rows [0, 1]
      = [("A", (100 : ℚ), (0 : ℚ)), ("B", (-100 : ℚ), (1 : ℚ))] := rfl
  have hps : predicted_sorted [("A", (100 : ℚ), (0 : ℚ)), ("B", (-100 : ℚ), (1 : ℚ))]
      = [("B", (-100 : ℚ), (1 : ℚ)), ("A", (100 : ℚ), (0 : ℚ))] := by decide
  have has : actual_sorted [("A", (100 : ℚ), (0 : ℚ)), ("B", (-100 : ℚ), (1 : ℚ))]
      = [("A", (100 : ℚ), (0 : ℚ)), ("B", (-100 : ℚ), (1 : ℚ))] := by decide
  have hkp : k_pred [("A", (100 : ℚ), (0 : ℚ)), ("B", (-100 : ℚ), (1 : ℚ))] 10 = 2 := by
    decide
  have hka : k_actual [("A", (100 : ℚ), (0 : ℚ)), ("B", (-100 : ℚ), (1 : ℚ))] 10 = 2 := by
    decide
  have hmg : max_gain [("A", (100 : ℚ), (0 : ℚ)), ("B", (-100 : ℚ), (1 : ℚ))] = 100 := by
    decide
  have hpg : pred_gains [("A", (100 : ℚ), (0 : ℚ)), ("B", (-100 : ℚ), (1 : ℚ))] 10
      = [(-1 : ℚ), 1] := by
    unfold pred_gains
    rw [hps, hkp, hmg]
    norm_num
  have hig : ideal_gains [("A", (100 : ℚ), (0 : ℚ)), ("B", (-100 : ℚ), (1 : ℚ))] 10
      = [(1 : ℚ), -1] := by
    unfold ideal_gains
    rw [has, hka, hmg]
    norm_num
  have hdp : dcg_pred [("A", (100 : ℚ), (0 : ℚ)), ("B", (-100 : ℚ), (1 : ℚ))] 10
      = -1 + 1 / Real.logb 2 3 := by
    unfold dcg_pred
    rw [hpg]
    have hm : ([(-1 : ℚ), 1].map (fun q : ℚ => (q : ℝ))) = [(-1 : ℝ), 1] := by norm_num
    rw [hm, dcg_pair]
  have hdi : dcg_ideal [("A", (100 : ℚ), (0 : ℚ)), ("B", (-100 : ℚ), (1 : ℚ))] 10
      = 1 + (-1) / Real.logb 2 3 := by
    unfold dcg_ideal
    rw [hig]
    have hm : ([(1 : ℚ), -1].map (fun q : ℚ => (q : ℝ))) = [(1 : ℝ), -1] := by norm_num
    rw [hm, dcg_pair]
  have hL : (1 : ℝ) < Real.logb 2 3 := one_lt_logb_two_three
  have hL0 : (0 : ℝ) < Real.logb 2 3 := lt_trans one_pos hL
  have hfrac : 1 / Real.logb 2 3 < 1 := (div_lt_one hL0).mpr hL
  have hpos : 0 < dcg_ideal [("A", (100 : ℚ), (0 : ℚ)), ("B", (-100 : ℚ), (1 : ℚ))] 10 := by
    rw [hdi]
    have hneg : (-1 : ℝ) / Real.logb 2 3 = -(1 / Real.logb 2 3) := by ring
    rw [hneg]
    linarith
  have hval : dcg_pred [("A", (100 : ℚ), (0 : ℚ)), ("B", (-100 : ℚ), (1 : ℚ))] 10
      / dcg_ideal [("A", (100 : ℚ), (0 : ℚ)), ("B", (-100 : ℚ), (1 : ℚ))] 10 = -1 := by
    rw [div_eq_iff (ne_of_gt hpos), hdp, hdi]
    ring
  constructor
  · rw [compute_main_path _ _ _ _ _ rfl rfl (by decide) (by decide), hsurv,
      ndcg_mem_iff, ndcg_some_iff]
    exact ⟨hpos, hval.symm⟩
  · intro hcon
    linarith [hcon.1]

theorem ndcg_mem_one_row :
    ("ndcg_at_10", (1 : ℝ)) ∈ compute_ranking_metrics
      (some ⟨true, true, [(some "A", some 1)]⟩) (some [5]) 10
      (fun _ => none) (fun _ => none) := by
  have hsurv : survivors
      (⟨true, true, [(some "A", some 1)]⟩ : ValidationFrame).rows [5]
      = [("A", (1 : ℚ), (5 : ℚ))] := rfl
  have hig : ideal_gains [("A", (1 : ℚ), (5 : ℚ))] 10 = [(1 : ℚ)] := by
    unfold ideal_gains
    rw [show actual_sorted [("A", (1 : ℚ), (5 : ℚ))] = [("A", (1 : ℚ), (5 : ℚ))] by decide,
      show k_actual [("A", (1 : ℚ), (5 : ℚ))] 10 = 1 by decide,
      show max_gain [("A", (1 : ℚ), (5 : ℚ))] = 1 by decide]
    norm_num
  have hpg : pred_gains [("A", (1 : ℚ), (5 : ℚ))] 10 = [(1 : ℚ)] := by
    unfold pred_gains
    rw [show predicted_sorted [("A", (1 : ℚ), (5 : ℚ))] = [("A", (1 : ℚ), (5 : ℚ))] by decide,
      show k_pred [("A", (1 : ℚ), (5 : ℚ))] 10 = 1 by decide,
      show max_gain [("A", (1 : ℚ), (5 : ℚ))] = 1 by decide]
    norm_num
  have hdi : dcg_ideal [("A", (1 : ℚ), (5 : ℚ))] 10 = 1 := by
    unfold dcg_ideal
    rw [hig]
    have hm : ([(1 : ℚ)].map (fun q : ℚ => (q : ℝ))) = [(1 : ℝ)] := by norm_num
    rw [hm, dcg_singleton]
  have hdp : dcg_pred [("A", (1 : ℚ), (5 : ℚ))] 10 = 1 := by
    unfold dcg_pred
    rw [hpg]
    have hm : ([(1 : ℚ)].map (fun q : ℚ => (q : ℝ))) = [(1 : ℝ)] := by norm_num
    rw [hm, dcg_singleton]
  rw [compute_main_path _ _ _ _ _ rfl rfl (by decide) (by decide), hsurv,
    ndcg_mem_iff, ndcg_some_iff, hdi, hdp]
  norm_num

theorem ndcg_bounds_amended_witness :
    (1 : ℝ) ≤ 1
      ∧ ((∀ r ∈ survivors [(some "A", some 1)] [5], 0 ≤ r.2.1) → 0 ≤ (1 : ℝ))
      ∧ (predicted_sorted (survivors [(some "A", some 1)] [5])
            = actual_sorted (survivors [(some "A", some 1)] [5]) → (1 : ℝ) = 1) :=
  ndcg_bounds_amended ⟨true, true, [(some "A", some 1)]⟩ [5] 10
    (fun _ => none) (fun _ => none) 1 ndcg_mem_one_row

/-! ### C3: recoverable input violations yield the empty mapping -/

/-- C3. `compute_ranking_metrics` returns the empty mapping (and, being a
total function, raises nothing) whenever the frame or the predictions are
absent, a required column is missing, the lengths mismatch, or no rows
survive the dropna step. -/
theorem empty_result_on_invalid_input (validation_frame : Option ValidationFrame)
    (predictions : Option (List ℚ)) (k : ℕ) (sfn kfn : List (ℚ × ℚ) → Option ℝ)
    (h : validation_frame = none ∨ predictions = none
      ∨ (∀ vf, validation_frame = some vf
          → ¬(vf.hasTitleCol = true ∧ vf.hasTargetCol = true))
      ∨ (∀ vf p, validation_frame = some vf → predictions = some p
          → p.length ≠ vf.rows.length)
      ∨ (∀ vf p, validation_frame = some vf → predictions = some p
          → survivors vf.rows p = [])) :
    compute_ranking_metrics validation_frame predictions k sfn kfn = [] := by
  cases validation_frame with
  | none => simp [compute_ranking_metrics]
  | some vf =>
    cases predictions with
    | none => simp [compute_ranking_metrics]
    | some p =>
      rcases h with h | h | h | h | h
      · exact absurd h (by simp)
      · exact absurd h (by simp)
      · simp only [compute_ranking_metrics]
        rw [if_pos (h vf rfl)]
      · simp only [compute_ranking_metrics]
        by_cases h1 : vf.hasTitleCol = true ∧ vf.hasTargetCol = true
        · rw [if_neg (by simp [h1.1, h1.2]), if_pos (h vf p rfl rfl)]
        · rw [if_pos h1]
      · simp only [compute_ranking_metrics]
        by_cases h1 : vf.hasTitleCol = true ∧ vf.hasTargetCol = true
        · rw [if_neg (by simp [h1.1, h1.2])]
          by_cases h2 : p.length = vf.rows.length
          · rw [if_neg (by simp [h2]), if_pos (h vf p rfl rfl)]
          · rw [if_pos h2]
        · rw [if_pos h1]

theorem empty_result_on_invalid_input_witness :
    compute_ranking_metrics (some ⟨true, true, [(some "A", some 1)]⟩)
      (some [1, 2]) 10 (fun _ => none) (fun _ => none) = [] :=
  empty_result_on_invalid_input _ _ 10 _ _
    (Or.inr (Or.inr (Or.inr (Or.inl (by
      intro vf p h1 h2
      cases h1
      cases h2
      decide)))))

/-! ### C4: degenerate series drop the correlation keys -/

theorem dedup_length_le_one_of_const {l : List ℚ} (h : ∀ x ∈ l, ∀ y ∈ l, x = y) :
    l.dedup.length ≤ 1 := by
  by_contra hcon
  push_neg at hcon
  match hd : l.dedup with
  | [] => rw [hd] at hcon; simp at hcon
  | [a] => rw [hd] at hcon; simp at hcon
  | a :: b :: rest =>
    have hnd : l.dedup.Nodup := List.nodup_dedup l
    rw [hd] at hnd
    have hab : a ≠ b := by
      rcases List.nodup_cons.mp hnd with ⟨hna, _⟩
      intro hEq
      exact hna (hEq ▸ List.mem_cons_self b rest)
    have ha : a ∈ l := by
      rw [← List.mem_dedup, hd]
      simp
    have hb : b ∈ l := by
      rw [← List.mem_dedup, hd]
      simp
    exact hab (h a ha b hb)

theorem not_corr_defined_of_const (w : List (String × ℚ × ℚ))
    (h : (∀ x ∈ w, ∀ y ∈ w, x.2.1 = y.2.1) ∨ (∀ x ∈ w, ∀ y ∈ w, x.2.2 = y.2.2)) :
    ¬ corr_defined w := by
  intro hc
  rcases h with h | h
  · have : ∀ x ∈ w.map (fun r => r.2.1), ∀ y ∈ w.map (fun r => r.2.1), x = y := by
      intro x hx y hy
      rcases List.mem_map.mp hx with ⟨r, hr, rfl⟩
      rcases List.mem_map.mp hy with ⟨t, ht, rfl⟩
      exact h r hr t ht
    have hle := dedup_length_le_one_of_const this
    unfold corr_defined at hc
    omega
  · have : ∀ x ∈ w.map (fun r => r.2.2), ∀ y ∈ w.map (fun r => r.2.2), x = y := by
      intro x hx y hy
      rcases List.mem_map.mp hx with ⟨r, hr, rfl⟩
      rcases List.mem_map.mp hy with ⟨t, ht, rfl⟩
      exact h r hr t ht
    have hle := dedup_length_le_one_of_const this
    unfold corr_defined at hc
    omega

/-- C4. When the target values of the surviving rows are all equal (or the
attached predictions are all equal), the returned mapping contains neither
`spearman_corr` nor `kendall_corr`, whatever values the external correlation
routines would produce; undefined metrics are dropped from the mapping, not
stored as sentinels. -/
theorem constant_series_drop_correlations (vf : ValidationFrame) (preds : List ℚ)
    (k : ℕ) (sfn kfn : List (ℚ × ℚ) → Option ℝ)
    (h : (∀ x ∈ survivors vf.rows preds, ∀ y ∈ survivors vf.rows preds, x.2.1 = y.2.1)
       ∨ (∀ x ∈ survivors vf.rows preds, ∀ y ∈ survivors vf.rows preds, x.2.2 = y.2.2)) :
    (∀ v : ℝ, ("spearman_corr", v)
        ∉ compute_ranking_metrics (some vf) (some preds) k sfn kfn)
      ∧ (∀ v : ℝ, ("kendall_corr", v)
        ∉ compute_ranking_metrics (some vf) (some preds) k sfn kfn) := by
  constructor
  · intro v hv
    have h1 := mem_compute_elim _ _ _ _ _ _ _ hv
    rw [spearman_mem_iff] at h1
    exact not_corr_defined_of_const _ h h1.1
  · intro v hv
    have h1 := mem_compute_elim _ _ _ _ _ _ _ hv
    rw [kendall_mem_iff] at h1
    exact not_corr_defined_of_const _ h h1.1

theorem constant_series_drop_correlations_witness :
    (∀ v : ℝ, ("spearman_corr", v) ∉ compute_ranking_metrics
        (some ⟨true, true, [(some "A", some 1), (some "B", some 1)]⟩)
        (some [1, 2]) 10 (fun _ => none) (fun _ => none))
      ∧ (∀ v : ℝ, ("kendall_corr", v) ∉ compute_ranking_metrics
        (some ⟨true, true, [(some "A", some 1), (some "B", some 1)]⟩)
        (some [1, 2]) 10 (fun _ => none) (fun _ => none)) :=
  constant_series_drop_correlations ⟨true, true, [(some "A", some 1), (some "B", some 1)]⟩
    [1, 2] 10 (fun _ => none) (fun _ => none) (Or.inl (by decide))

/-! ### C5 and C9: recall and precision -/

theorem k_actual_eq_min (w : List (String × ℚ × ℚ)) (k : ℕ) :
    k_actual w k = min k w.length := by
  unfold k_actual actual_sorted
  rw [List.length_insertionSort]

theorem k_pred_eq_min (w : List (String × ℚ × ℚ)) (k : ℕ) :
    k_pred w k = min k w.length := by
  unfold k_pred predicted_sorted
  rw [List.length_insertionSort]

theorem overlap_le_k_actual (w : List (String × ℚ × ℚ)) (k : ℕ) :
    overlap w k ≤ k_actual w k := by
  unfold overlap
  have h1 : ((actual_top_titles w k).dedup.filter
      (fun t => (predicted_top_titles w k).contains t)).length
      ≤ (actual_top_titles w k).dedup.length := List.length_filter_le _ _
  have h2 : (actual_top_titles w k).dedup.length ≤ (actual_top_titles w k).length :=
    (List.dedup_sublist _).length_le
  have h3 : (actual_top_titles w k).length = k_actual w k := by
    unfold actual_top_titles
    rw [List.length_map, List.length_take]
    rw [k_actual_eq_min]
    unfold actual_sorted
    rw [List.length_insertionSort]
    omega
  omega

theorem recallOf_some_iff (w : List (String × ℚ × ℚ)) (k : ℕ) (q : ℚ) :
    recallOf w k = some q ↔
      0 < k_actual w k ∧ q = (overlap w k : ℚ) / (k_actual w k : ℚ) := by
  unfold recallOf
  split_ifs with h <;> simp [h, eq_comm]

theorem precisionOf_some_iff (w : List (String × ℚ × ℚ)) (k : ℕ) (q : ℚ) :
    precisionOf w k = some q ↔
      0 < k_pred w k ∧ q = (overlap w k : ℚ) / (k_pred w k : ℚ) := by
  unfold precisionOf
  split_ifs with h <;> simp [h, eq_comm]

/-- C5. Whenever `recall_at_10` (resp. `precision_at_10`) appears in the
returned mapping, its value is `overlap / min(k, surviving row count)` and it
lies in `[0, 1]`; when that denominator is zero neither key appears. -/
theorem recall_precision_values (vf : ValidationFrame) (preds : List ℚ) (k : ℕ)
    (sfn kfn : List (ℚ × ℚ) → Option ℝ) :
    (∀ v : ℝ, ("recall_at_10", v)
        ∈ compute_ranking_metrics (some vf) (some preds) k sfn kfn →
      v = ((overlap (survivors vf.rows preds) k : ℚ)
            / (min k (survivors vf.rows preds).length : ℚ) : ℚ)
        ∧ 0 ≤ v ∧ v ≤ 1)
    ∧ (∀ v : ℝ, ("precision_at_10", v)
        ∈ compute_ranking_metrics (some vf) (some preds) k sfn kfn →
      v = ((overlap (survivors vf.rows preds) k : ℚ)
            / (min k (survivors vf.rows preds).length : ℚ) : ℚ)
        ∧ 0 ≤ v ∧ v ≤ 1)
    ∧ (min k (survivors vf.rows preds).length = 0 →
      (∀ v : ℝ, ("recall_at_10", v)
          ∉ compute_ranking_metrics (some vf) (some preds) k sfn kfn)
        ∧ (∀ v : ℝ, ("precision_at_10", v)
          ∉ compute_ranking_metrics (some vf) (some preds) k sfn kfn)) := by
  have hbound : ∀ q : ℚ, 0 < k_actual (survivors vf.rows preds) k →
      q = (overlap (survivors vf.rows preds) k : ℚ)
        / (k_actual (survivors vf.rows preds) k : ℚ) →
      0 ≤ q ∧ q ≤ 1 := by
    intro q hpos hq
    have hnum : (0 : ℚ) ≤ (overlap (survivors vf.rows preds) k : ℚ) := by positivity
    have hden : (0 : ℚ) < (k_actual (survivors vf.rows preds) k : ℚ) := by
      exact_mod_cast hpos
    constructor
    · rw [hq]
      positivity
    · rw [hq, div_le_one hden]
      exact_mod_cast overlap_le_k_actual (survivors vf.rows preds) k
  refine ⟨?_, ?_, ?_⟩
  · intro v hv
    have h1 := mem_compute_elim _ _ _ _ _ _ _ hv
    rw [recall_mem_iff] at h1
    rcases h1 with ⟨q, hq, rfl⟩
    rw [recallOf_some_iff] at hq
    rcases hq with ⟨hpos, hq⟩
    rcases hbound q hpos hq with ⟨h0, h1⟩
    refine ⟨?_, by exact_mod_cast h0, by exact_mod_cast h1⟩
    rw [hq, k_actual_eq_min, Nat.cast_min]
  · intro v hv
    have h1 := mem_compute_elim _ _ _ _ _ _ _ hv
    rw [precision_mem_iff] at h1
    rcases h1 with ⟨q, hq, rfl⟩
    rw [precisionOf_some_iff] at hq
    rcases hq with ⟨hpos, hq⟩
    rw [k_pred_eq_min, ← k_actual_eq_min] at hq hpos
    rcases hbound q hpos hq with ⟨h0, h1⟩
    refine ⟨?_, by exact_mod_cast h0, by exact_mod_cast h1⟩
    rw [hq, k_actual_eq_min, Nat.cast_min]
  · intro hzero
    constructor
    · intro v hv
      have h1 := mem_compute_elim _ _ _ _ _ _ _ hv
      rw [recall_mem_iff] at h1
      rcases h1 with ⟨q, hq, _⟩
      rw [recallOf_some_iff] at hq
      rw [k_actual_eq_min, hzero] at hq
      exact absurd hq.1 (by omega)
    · intro v hv
      have h1 := mem_compute_elim _ _ _ _ _ _ _ hv
      rw [precision_mem_iff] at h1
      rcases h1 with ⟨q, hq, _⟩
      rw [precisionOf_some_iff] at hq
      rw [k_pred_eq_min, hzero] at hq
      exact absurd hq.1 (by omega)

/-- C9. Whenever the returned mapping contains both `recall_at_10` and
`precision_at_10`, the two values are equal: both denominators are
`min(k, surviving row count)` and the numerator is the same overlap. -/
theorem recall_eq_precision (vf : ValidationFrame) (preds : List ℚ) (k : ℕ)
    (sfn kfn : List (ℚ × ℚ) → Option ℝ) (r p : ℝ)
    (hr : ("recall_at_10", r) ∈ compute_ranking_metrics (some vf) (some preds) k sfn kfn)
    (hp : ("precision_at_10", p)
      ∈ compute_ranking_metrics (some vf) (some preds) k sfn kfn) :
    r = p := by
  have h1 := mem_compute_elim _ _ _ _ _ _ _ hr
  have h2 := mem_compute_elim _ _ _ _ _ _ _ hp
  rw [recall_mem_iff] at h1
  rw [precision_mem_iff] at h2
  rcases h1 with ⟨q1, hq1, rfl⟩
  rcases h2 with ⟨q2, hq2, rfl⟩
  rw [recallOf_some_iff] at hq1
  rw [precisionOf_some_iff] at hq2
  rw [hq1.2, hq2.2, k_pred_eq_k_actual]

theorem recall_mem_one_row :
    ("recall_at_10", (1 : ℝ)) ∈ compute_ranking_metrics
      (some ⟨true, true, [(some "A", some 1)]⟩) (some [5]) 10
      (fun _ => none) (fun _ => none) := by
  rw [compute_main_path _ _ _ _ _ rfl rfl (by decide) (by decide),
    show survivors (⟨true, true, [(some "A", some 1)]⟩ : ValidationFrame).rows [5]
      = [("A", (1 : ℚ), (5 : ℚ))] from rfl, recall_mem_iff]
  refine ⟨1, ?_, by norm_num⟩
  rw [recallOf_some_iff]
  refine ⟨by decide, ?_⟩
  rw [show overlap [("A", (1 : ℚ), (5 : ℚ))] 10 = 1 by decide,
    show k_actual [("A", (1 : ℚ), (5 : ℚ))] 10 = 1 by decide]
  norm_num

theorem precision_mem_one_row :
    ("precision_at_10", (1 : ℝ)) ∈ compute_ranking_metrics
      (some ⟨true, true, [(some "A", some 1)]⟩) (some [5]) 10
      (fun _ => none) (fun _ => none) := by
  rw [compute_main_path _ _ _ _ _ rfl rfl (by decide) (by decide),
    show survivors (⟨true, true, [(some "A", some 1)]⟩ : ValidationFrame).rows [5]
      = [("A", (1 : ℚ), (5 : ℚ))] from rfl, precision_mem_iff]
  refine ⟨1, ?_, by norm_num⟩
  rw [precisionOf_some_iff]
  refine ⟨by decide, ?_⟩
  rw [show overlap [("A", (1 : ℚ), (5 : ℚ))] 10 = 1 by decide,
    show k_pred [("A", (1 : ℚ), (5 : ℚ))] 10 = 1 by decide]
  norm_num

theorem recall_precision_values_witness :
    (1 : ℝ) = ((overlap (survivors [(some "A", some 1)] [5]) 10 : ℚ)
        / (min 10 (survivors [(some "A", some 1)] [5]).length : ℚ) : ℚ)
      ∧ 0 ≤ (1 : ℝ) ∧ (1 : ℝ) ≤ 1 :=
  (recall_precision_values ⟨true, true, [(some "A", some 1)]⟩ [5] 10
    (fun _ => none) (fun _ => none)).1 1 recall_mem_one_row

theorem recall_eq_precision_witness : (1 : ℝ) = (1 : ℝ) :=
  recall_eq_precision ⟨true, true, [(some "A", some 1)]⟩ [5] 10
    (fun _ => none) (fun _ => none) 1 1 recall_mem_one_row precision_mem_one_row

/-! ### C10: `top10_overlap` is always present in a non-empty result -/

theorem dcg_ideal_zero_k_zero : dcg_ideal [("A", (1 : ℚ), (2 : ℚ))] 0 = 0 := by
  unfold dcg_ideal
  rw [show ideal_gains [("A", (1 : ℚ), (2 : ℚ))] 0 = [] by decide]
  exact dcg_nil

/-- C10. Whenever `compute_ranking_metrics` returns a non-empty mapping, the
mapping contains `top10_overlap`, whose value is the cast of a natural number
bounded by `min(k, surviving row count)`; and it is the only metric that can
never be omitted: with `k = 0` on a one-row table the result is exactly
`{top10_overlap: 0}` with all five other keys absent. -/
theorem top10_overlap_always_present :
    (∀ (vf : ValidationFrame) (preds : List ℚ) (k : ℕ)
        (sfn kfn : List (ℚ × ℚ) → Option ℝ),
      compute_ranking_metrics (some vf) (some preds) k sfn kfn ≠ [] →
        ("top10_overlap", ((overlap (survivors vf.rows preds) k : ℕ) : ℝ))
            ∈ compute_ranking_metrics (some vf) (some preds) k sfn kfn
          ∧ overlap (survivors vf.rows preds) k
            ≤ min k (survivors vf.rows preds).length)
    ∧ compute_ranking_metrics (some ⟨true, true, [(some "A", some 1)]⟩) (some [2]) 0
        (fun _ => none) (fun _ => none) = [("top10_overlap", (0 : ℝ))] := by
  constructor
  · intro vf preds k sfn kfn hne
    by_cases h1 : vf.hasTitleCol = true ∧ vf.hasTargetCol = true
    · by_cases h2 : preds.length = vf.rows.length
      · by_cases h3 : survivors vf.rows preds = []
        · exfalso
          apply hne
          simp only [compute_ranking_metrics]
          rw [if_neg (by simp [h1.1, h1.2]), if_neg (by simp [h2]), if_pos h3]
        · rw [compute_main_path _ _ _ _ _ h1.1 h1.2 h2 h3]
          refine ⟨(top10_mem_iff _ _ _ _ _).mpr rfl, ?_⟩
          have := overlap_le_k_actual (survivors vf.rows preds) k
          rwa [k_actual_eq_min] at this
      · exfalso
        apply hne
        simp only [compute_ranking_metrics]
        rw [if_neg (by simp [h1.1, h1.2]), if_pos h2]
    · exfalso
      apply hne
      simp only [compute_ranking_metrics]
      rw [if_pos h1]
  · rw [compute_main_path _ _ _ _ _ rfl rfl (by decide) (by decide),
      show survivors (⟨true, true, [(some "A", some 1)]⟩ : ValidationFrame).rows [2]
        = [("A", (1 : ℚ), (2 : ℚ))] from rfl]
    unfold metricsMap rankingEntries
    rw [show overlap [("A", (1 : ℚ), (2 : ℚ))] 0 = 0 by decide,
      show recallOf [("A", (1 : ℚ), (2 : ℚ))] 0 = none by decide,
      show precisionOf [("A", (1 : ℚ), (2 : ℚ))] 0 = none by decide,
      show ndcg [("A", (1 : ℚ), (2 : ℚ))] 0 = none by
        unfold ndcg
        rw [if_neg]
        rw [dcg_ideal_zero_k_zero]
        exact lt_irrefl 0,
      if_neg (show ¬ corr_defined [("A", (1 : ℚ), (2 : ℚ))] by decide)]
    simp [List.filterMap]

theorem top10_overlap_always_present_witness :
    ("top10_overlap",
        ((overlap (survivors [(some "A", some 1)] [5]) 10 : ℕ) : ℝ))
          ∈ compute_ranking_metrics (some ⟨true, true, [(some "A", some 1)]⟩)
            (some [5]) 10 (fun _ => none) (fun _ => none)
      ∧ overlap (survivors [(some "A", some 1)] [5]) 10
        ≤ min 10 (survivors [(some "A", some 1)] [5]).length :=
  top10_overlap_always_present.1 ⟨true, true, [(some "A", some 1)]⟩ [5] 10
    (fun _ => none) (fun _ => none)
    (by
      rw [compute_main_path _ _ _ _ _ rfl rfl (by decide) (by decide)]
      intro hcon
      have h1 := (top10_mem_iff (survivors [(some "A", some 1)] [5]) 10
        (fun _ => none) (fun _ => none)
        ((overlap (survivors [(some "A", some 1)] [5]) 10 : ℕ) : ℝ)).mpr rfl
      rw [hcon] at h1
      simp at h1)

/-! ### C6: invariance under injective relabeling of titles -/

/-- Apply a title-renaming function to every (possibly missing) title cell. -/
def relabelRows (f : String → String) (rows : List (Option String × Option ℚ)) :
    List (Option String × Option ℚ) :=
  rows.map (fun r => (r.1.map f, r.2))

/-- The same frame with every title relabeled. -/
def relabelFrame (f : String → String) (vf : ValidationFrame) : ValidationFrame :=
  ⟨vf.hasTitleCol, vf.hasTargetCol, relabelRows f vf.rows⟩

/-- Relabel a surviving row (title, target, predicted). -/
def relabelRow3 (f : String → String) (r : String × ℚ × ℚ) : String × ℚ × ℚ :=
  (f r.1, r.2)

theorem survivors_relabel (f : String → String) (rows : List (Option String × Option ℚ))
    (preds : List ℚ) :
    survivors (relabelRows f rows) preds
      = (survivors rows preds).map (relabelRow3 f) := by
  unfold survivors relabelRows relabelRow3
  induction rows generalizing preds with
  | nil => simp
  | cons r rows ih =>
    cases preds with
    | nil => simp
    | cons p preds =>
      rw [List.map_cons, List.zip_cons_cons, List.zip_cons_cons,
        List.filterMap_cons, List.filterMap_cons]
      rcases r with ⟨t, y⟩
      cases t with
      | none => simpa using ih preds
      | some t0 =>
        cases y with
        | none => simpa using ih preds
        | some y0 => simpa using ih preds

theorem orderedInsert_map_rel {α : Type} (g : α → α) (r : α → α → Prop)
    [DecidableRel r] (hr : ∀ a b, r (g a) (g b) ↔ r a b) (a : α) (l : List α) :
    (l.map g).orderedInsert r (g a) = (l.orderedInsert r a).map g := by
  induction l with
  | nil => simp [List.orderedInsert]
  | cons b l ih =>
    by_cases h : r a b
    · rw [List.map_cons, List.orderedInsert, List.orderedInsert,
        if_pos ((hr a b).mpr h), if_pos h, List.map_cons, List.map_cons]
    · rw [List.map_cons, List.orderedInsert, List.orderedInsert,
        if_neg (fun hc => h ((hr a b).mp hc)), if_neg h, List.map_cons, ih]

theorem insertionSort_map_rel {α : Type} (g : α → α) (r : α → α → Prop)
    [DecidableRel r] (hr : ∀ a b, r (g a) (g b) ↔ r a b) (l : List α) :
    (l.map g).insertionSort r = (l.insertionSort r).map g := by
  induction l with
  | nil => simp [List.insertionSort]
  | cons a l ih =>
    rw [List.map_cons, List.insertionSort, List.insertionSort, ih,
      orderedInsert_map_rel g r hr]

theorem actual_sorted_relabel (f : String → String) (w : List (String × ℚ × ℚ)) :
    actual_sorted (w.map (relabelRow3 f)) = (actual_sorted w).map (relabelRow3 f) := by
  unfold actual_sorted
  exact insertionSort_map_rel (relabelRow3 f) targetDescRel (fun a b => Iff.rfl) w

theorem predicted_sorted_relabel (f : String → String) (w : List (String × ℚ × ℚ)) :
    predicted_sorted (w.map (relabelRow3 f))
      = (predicted_sorted w).map (relabelRow3 f) := by
  unfold predicted_sorted
  exact insertionSort_map_rel (relabelRow3 f) predDescRel (fun a b => Iff.rfl) w

theorem k_actual_relabel (f : String → String) (w : List (String × ℚ × ℚ)) (k : ℕ) :
    k_actual (w.map (relabelRow3 f)) k = k_actual w k := by
  rw [k_actual_eq_min, k_actual_eq_min, List.length_map]

theorem k_pred_relabel (f : String → String) (w : List (String × ℚ × ℚ)) (k : ℕ) :
    k_pred (w.map (relabelRow3 f)) k = k_pred w k := by
  rw [k_pred_eq_min, k_pred_eq_min, List.length_map]

theorem actual_top_titles_relabel (f : String → String) (w : List (String × ℚ × ℚ))
    (k : ℕ) :
    actual_top_titles (w.map (relabelRow3 f)) k = (actual_top_titles w k).map f := by
  unfold actual_top_titles
  rw [actual_sorted_relabel, k_actual_relabel, ← List.map_take, List.map_map,
    List.map_map]
  rfl

theorem predicted_top_titles_relabel (f : String → String) (w : List (String × ℚ × ℚ))
    (k : ℕ) :
    predicted_top_titles (w.map (relabelRow3 f)) k
      = (predicted_top_titles w k).map f := by
  unfold predicted_top_titles
  rw [predicted_sorted_relabel, k_pred_relabel, ← List.map_take, List.map_map,
    List.map_map]
  rfl

theorem dedup_map_inj (f : String → String) (hf : Function.Injective f)
    (l : List String) : (l.map f).dedup = l.dedup.map f := by
  induction l with
  | nil => simp
  | cons a l ih =>
    by_cases h : a ∈ l
    · rw [List.map_cons, List.dedup_cons_of_mem ((List.mem_map_of_injective hf).mpr h),
        List.dedup_cons_of_mem h, ih]
    · rw [List.map_cons,
        List.dedup_cons_of_not_mem (fun hc => h ((List.mem_map_of_injective hf).mp hc)),
        List.dedup_cons_of_not_mem h, List.map_cons, ih]

theorem contains_map_inj (f : String → String) (hf : Function.Injective f)
    (B : List String) (a : String) : (B.map f).contains (f a) = B.contains a := by
  rw [show (B.map f).contains (f a) = (B.map f).elem (f a) from rfl,
    show B.contains a = B.elem a from rfl, List.elem_eq_mem, List.elem_eq_mem]
  exact decide_eq_decide.mpr (List.mem_map_of_injective hf)

theorem overlap_relabel (f : String → String) (hf : Function.Injective f)
    (w : List (String × ℚ × ℚ)) (k : ℕ) :
    overlap (w.map (relabelRow3 f)) k = overlap w k := by
  unfold overlap
  rw [actual_top_titles_relabel, predicted_top_titles_relabel, dedup_map_inj f hf,
    List.filter_map, List.length_map]
  congr 1
  apply List.filter_congr
  intro a _
  exact contains_map_inj f hf _ a

theorem targets_relabel (f : String → String) (w : List (String × ℚ × ℚ)) :
    (actual_sorted (w.map (relabelRow3 f))).map (fun r => r.2.1)
      = (actual_sorted w).map (fun r => r.2.1) := by
  rw [actual_sorted_relabel, List.map_map]
  rfl

theorem max_gain_relabel (f : String → String) (w : List (String × ℚ × ℚ)) :
    max_gain (w.map (relabelRow3 f)) = max_gain w := by
  unfold max_gain
  rw [targets_relabel]

theorem pred_gains_relabel (f : String → String) (w : List (String × ℚ × ℚ)) (k : ℕ) :
    pred_gains (w.map (relabelRow3 f)) k = pred_gains w k := by
  unfold pred_gains
  rw [predicted_sorted_relabel, k_pred_relabel, max_gain_relabel, ← List.map_take,
    List.map_map]
  rfl

theorem ideal_gains_relabel (f : String → String) (w : List (String × ℚ × ℚ)) (k : ℕ) :
    ideal_gains (w.map (relabelRow3 f)) k = ideal_gains w k := by
  unfold ideal_gains
  rw [actual_sorted_relabel, k_actual_relabel, max_gain_relabel, ← List.map_take,
    List.map_map]
  rfl

theorem ndcg_relabel (f : String → String) (w : List (String × ℚ × ℚ)) (k : ℕ) :
    ndcg (w.map (relabelRow3 f)) k = ndcg w k := by
  unfold ndcg dcg_pred dcg_ideal
  rw [pred_gains_relabel, ideal_gains_relabel]

theorem corr_pairs_relabel (f : String → String) (w : List (String × ℚ × ℚ)) :
    corr_pairs (w.map (relabelRow3 f)) = corr_pairs w := by
  unfold corr_pairs
  rw [List.map_map]
  rfl

theorem corr_defined_relabel (f : String → String) (w : List (String × ℚ × ℚ)) :
    corr_defined (w.map (relabelRow3 f)) ↔ corr_defined w := by
  unfold corr_defined
  rw [List.map_map, List.map_map]
  rfl

theorem metricsMap_relabel (f : String → String) (hf : Function.Injective f)
    (w : List (String × ℚ × ℚ)) (k : ℕ) (sfn kfn : List (ℚ × ℚ) → Option ℝ) :
    metricsMap (w.map (relabelRow3 f)) k sfn kfn = metricsMap w k sfn kfn := by
  unfold metricsMap rankingEntries recallOf precisionOf
  rw [overlap_relabel f hf, k_actual_relabel, k_pred_relabel, ndcg_relabel,
    corr_pairs_relabel]
  by_cases hc : corr_defined w
  · rw [if_pos hc, if_pos ((corr_defined_relabel f w).mpr hc),
      if_pos hc, if_pos ((corr_defined_relabel f w).mpr hc)]
  · rw [if_neg hc, if_neg (fun h => hc ((corr_defined_relabel f w).mp h)),
      if_neg hc, if_neg (fun h => hc ((corr_defined_relabel f w).mp h))]

theorem compute_empty_cols (vf : ValidationFrame) (preds : List ℚ) (k : ℕ)
    (sfn kfn : List (ℚ × ℚ) → Option ℝ)
    (h : ¬(vf.hasTitleCol = true ∧ vf.hasTargetCol = true)) :
    compute_ranking_metrics (some vf) (some preds) k sfn kfn = [] := by
  simp only [compute_ranking_metrics]
  rw [if_pos h]

theorem compute_empty_len (vf : ValidationFrame) (preds : List ℚ) (k : ℕ)
    (sfn kfn : List (ℚ × ℚ) → Option ℝ) (h : preds.length ≠ vf.rows.length) :
    compute_ranking_metrics (some vf) (some preds) k sfn kfn = [] := by
  simp only [compute_ranking_metrics]
  by_cases h1 : vf.hasTitleCol = true ∧ vf.hasTargetCol = true
  · rw [if_neg (by simp [h1.1, h1.2]), if_pos h]
  · rw [if_pos h1]

theorem compute_empty_surv (vf : ValidationFrame) (preds : List ℚ) (k : ℕ)
    (sfn kfn : List (ℚ × ℚ) → Option ℝ) (h : survivors vf.rows preds = []) :
    compute_ranking_metrics (some vf) (some preds) k sfn kfn = [] := by
  simp only [compute_ranking_metrics]
  by_cases h1 : vf.hasTitleCol = true ∧ vf.hasTargetCol = true
  · by_cases h2 : preds.length = vf.rows.length
    · rw [if_neg (by simp [h1.1, h1.2]), if_neg (by simp [h2]), if_pos h]
    · rw [if_neg (by simp [h1.1, h1.2]), if_pos h2]
  · rw [if_pos h1]

/-- C6. Applying the same injective renaming to every title changes nothing
in the mapping returned by `compute_ranking_metrics`: all metric values,
including the top-k overlap, are invariant under simultaneous relabeling. -/
theorem relabel_titles_invariant (vf : ValidationFrame) (preds : List ℚ) (k : ℕ)
    (sfn kfn : List (ℚ × ℚ) → Option ℝ) (f : String → String)
    (hf : Function.Injective f) :
    compute_ranking_metrics (some (relabelFrame f vf)) (some preds) k sfn kfn
      = compute_ranking_metrics (some vf) (some preds) k sfn kfn := by
  have hR : (relabelFrame f vf).rows = relabelRows f vf.rows := rfl
  by_cases h1 : vf.hasTitleCol = true ∧ vf.hasTargetCol = true
  · by_cases h2 : preds.length = vf.rows.length
    · by_cases h3 : survivors vf.rows preds = []
      · rw [compute_empty_surv (relabelFrame f vf) preds k sfn kfn
            (by rw [hR, survivors_relabel, h3]; rfl),
          compute_empty_surv vf preds k sfn kfn h3]
      · have hlen2 : preds.length = (relabelFrame f vf).rows.length := by
          rw [hR]
          unfold relabelRows
          rw [List.length_map]
          exact h2
        have hw2 : survivors (relabelFrame f vf).rows preds ≠ [] := by
          rw [hR, survivors_relabel]
          intro hc
          exact h3 (List.map_eq_nil_iff.mp hc)
        rw [compute_main_path (relabelFrame f vf) preds k sfn kfn h1.1 h1.2 hlen2 hw2,
          compute_main_path vf preds k sfn kfn h1.1 h1.2 h2 h3, hR, survivors_relabel]
        exact metricsMap_relabel f hf _ k sfn kfn
    · rw [compute_empty_len (relabelFrame f vf) preds k sfn kfn (by
          rw [hR]
          unfold relabelRows
          rw [List.length_map]
          exact h2),
        compute_empty_len vf preds k sfn kfn h2]
  · rw [compute_empty_cols (relabelFrame f vf) preds k sfn kfn h1,
      compute_empty_cols vf preds k sfn kfn h1]

theorem relabel_titles_invariant_witness :
    compute_ranking_metrics
        (some (relabelFrame (fun s => s) ⟨true, true, [(some "A", some 1)]⟩))
        (some [5]) 10 (fun _ => none) (fun _ => none)
      = compute_ranking_metrics (some ⟨true, true, [(some "A", some 1)]⟩)
        (some [5]) 10 (fun _ => none) (fun _ => none) :=
  relabel_titles_invariant ⟨true, true, [(some "A", some 1)]⟩ [5] 10
    (fun _ => none) (fun _ => none) (fun s => s) (fun _ _ h => h)

/-! ### A column-oriented data-frame model for the feature helpers

`prepare_features` and `create_sample_weights` consume a general pandas
frame.  A column is embedded by its pandas dtype class: numeric
(`is_numeric_dtype`), boolean (`is_bool_dtype`), or `object` (strings); a
cell is `none` when the value is missing (NaN). -/

inductive ColData where
  | numeric : List (Option ℚ) → ColData
  | boolean : List (Option Bool) → ColData
  | object : List (Option String) → ColData

structure DataFrame where
  nrows : ℕ
  cols : List (String × ColData)

def colLen : ColData → ℕ
  | ColData.numeric v => v.length
  | ColData.boolean v => v.length
  | ColData.object v => v.length

/-- `df[name]`: the first column with the given name, if any. -/
def getCol (df : DataFrame) (name : String) : Option ColData :=
  (df.cols.find? (fun c => c.1 == name)).map (fun c => c.2)

/-- `name in df.columns`. -/
def hasCol (df : DataFrame) (name : String) : Bool :=
  df.cols.any (fun c => c.1 == name)

/-- Order-preserving first-occurrence deduplication, as performed by
`pandas.Series.unique()`. -/
def pdUniqueAux {α : Type} [DecidableEq α] (seen : List α) : List α → List α
  | [] => []
  | a :: rest =>
    if a ∈ seen then pdUniqueAux seen rest
    else a :: pdUniqueAux (a :: seen) rest

def pdUnique {α : Type} [DecidableEq α] (l : List α) : List α :=
  pdUniqueAux [] l

theorem mem_pdUniqueAux {α : Type} [DecidableEq α] (l : List α) :
    ∀ (seen : List α) (a : α), a ∈ pdUniqueAux seen l ↔ a ∈ l ∧ a ∉ seen := by
  induction l with
  | nil => intro seen a; simp [pdUniqueAux]
  | cons b rest ih =>
    intro seen a
    unfold pdUniqueAux
    by_cases hb : b ∈ seen
    · rw [if_pos hb, ih seen a]
      constructor
      · rintro ⟨ha, hs⟩
        exact ⟨List.mem_cons_of_mem _ ha, hs⟩
      · rintro ⟨hab, hs⟩
        rcases List.mem_cons.mp hab with rfl | ha
        · exact absurd hb hs
        · exact ⟨ha, hs⟩
    · rw [if_neg hb]
      constructor
      · intro hmem
        rcases List.mem_cons.mp hmem with rfl | ha
        · exact ⟨List.mem_cons_self _ _, hb⟩
        · rcases (ih (b :: seen) a).mp ha with ⟨h1, h2⟩
          exact ⟨List.mem_cons_of_mem _ h1,
            fun hc => h2 (List.mem_cons_of_mem _ hc)⟩
      · rintro ⟨hab, hs⟩
        rcases List.mem_cons.mp hab with rfl | ha
        · exact List.mem_cons_self _ _
        · by_cases hab2 : a = b
          · exact hab2 ▸ List.mem_cons_self _ _
          · refine List.mem_cons_of_mem _ ((ih (b :: seen) a).mpr ⟨ha, ?_⟩)
            intro hc
            rcases List.mem_cons.mp hc with h | h
            · exact hab2 h
            · exact hs h

theorem mem_pdUnique {α : Type} [DecidableEq α] (l : List α) (a : α) :
    a ∈ pdUnique l ↔ a ∈ l := by
  unfold pdUnique
  rw [mem_pdUniqueAux]
  simp

theorem nodup_pdUniqueAux {α : Type} [DecidableEq α] (l : List α) :
    ∀ seen : List α, (pdUniqueAux seen l).Nodup := by
  induction l with
  | nil => intro seen; simp [pdUniqueAux]
  | cons b rest ih =>
    intro seen
    unfold pdUniqueAux
    by_cases hb : b ∈ seen
    · rw [if_pos hb]
      exact ih seen
    · rw [if_neg hb]
      refine List.nodup_cons.mpr ⟨?_, ih (b :: seen)⟩
      intro hc
      exact ((mem_pdUniqueAux rest (b :: seen) b).mp hc).2 (List.mem_cons_self _ _)

theorem nodup_pdUnique {α : Type} [DecidableEq α] (l : List α) :
    (pdUnique l).Nodup := nodup_pdUniqueAux l []

theorem pdUnique_length_le_two_iff (vals : List String) :
    (pdUnique vals).length ≤ 2 ↔ ∃ a b, ∀ v ∈ vals, v = a ∨ v = b := by
  constructor
  · intro hlen
    match hu : pdUnique vals with
    | [] =>
      refine ⟨"", "", ?_⟩
      intro v hv
      have : v ∈ pdUnique vals := (mem_pdUnique vals v).mpr hv
      rw [hu] at this
      simp at this
    | [a] =>
      refine ⟨a, a, ?_⟩
      intro v hv
      have : v ∈ pdUnique vals := (mem_pdUnique vals v).mpr hv
      rw [hu] at this
      simp at this
      exact Or.inl this
    | [a, b] =>
      refine ⟨a, b, ?_⟩
      intro v hv
      have : v ∈ pdUnique vals := (mem_pdUnique vals v).mpr hv
      rw [hu] at this
      simpa using this
    | a :: b :: c :: rest =>
      rw [hu] at hlen
      simp at hlen
  · rintro ⟨a, b, hab⟩
    by_contra hcon
    push_neg at hcon
    match hu : pdUnique vals with
    | [] => rw [hu] at hcon; simp at hcon
    | [x] => rw [hu] at hcon; simp at hcon
    | [x, y] => rw [hu] at hcon; simp at hcon
    | x :: y :: z :: rest =>
      have hnd : (pdUnique vals).Nodup := nodup_pdUnique vals
      rw [hu] at hnd
      have hxy : x ≠ y := by
        rcases List.nodup_cons.mp hnd with ⟨hna, _⟩
        intro hEq
        exact hna (by rw [hEq]; exact List.mem_cons_self y (z :: rest))
      have hxz : x ≠ z := by
        rcases List.nodup_cons.mp hnd with ⟨hna, _⟩
        intro hEq
        exact hna (by rw [hEq]; exact List.mem_cons_of_mem y (List.mem_cons_self z rest))
      have hyz : y ≠ z := by
        rcases List.nodup_cons.mp hnd with ⟨_, hnd2⟩
        rcases List.nodup_cons.mp hnd2 with ⟨hna, _⟩
        intro hEq
        exact hna (by rw [hEq]; exact List.mem_cons_self z rest)
      have hx : x ∈ vals := (mem_pdUnique vals x).mp (hu ▸ List.mem_cons_self _ _)
      have hy : y ∈ vals := (mem_pdUnique vals y).mp
        (hu ▸ List.mem_cons_of_mem x (List.mem_cons_self _ _))
      have hz : z ∈ vals := (mem_pdUnique vals z).mp
        (hu ▸ List.mem_cons_of_mem x (List.mem_cons_of_mem y (List.mem_cons_self _ _)))
      rcases hab x hx with rfl | rfl <;> rcases hab y hy with rfl | rfl <;>
        rcases hab z hz with rfl | rfl <;> simp_all

/-! ### Embedding of `prepare_features` (model_utils.py:45-127) -/

/-- The default exclusion list `DEFAULT_EXCLUDE_COLS` (model_utils.py:20-35). -/
def DEFAULT_EXCLUDE_COLS : List String :=
  ["adult", "backdrop_path", "genre_ids", "id", "original_language",
   "original_title", "overview", "poster_path", "release_date", "title",
   "video", "genres", "title_normalized", "rank", "distributor",
   "genre_names", "release_month_name", "nearest_holiday",
   "nearby_major_releases_max_revenue", "days_to_nearest_major_release",
   "domestic_revenue", "revenue_domestic", "revenue",
   "primary_genre", "release_season", "competition_intensity",
   "popularity", "vote_average", "vote_count",
   "release_year"]

/-- Keep the cells of a column at the positions where `mask` is true
(row filtering). -/
def maskCol (mask : List Bool) : ColData → ColData
  | ColData.numeric v =>
    ColData.numeric ((mask.zip v).filterMap (fun p => if p.1 then some p.2 else none))
  | ColData.boolean v =>
    ColData.boolean ((mask.zip v).filterMap (fun p => if p.1 then some p.2 else none))
  | ColData.object v =>
    ColData.object ((mask.zip v).filterMap (fun p => if p.1 then some p.2 else none))

/-- The row mask `df['is_major_studio'] == 1` (on a non-numeric column the
elementwise comparison with the number 1 is everywhere false). -/
def majorMask (df : DataFrame) : List Bool :=
  match getCol df "is_major_studio" with
  | some (ColData.numeric v) => v.map (fun o => o == some 1)
  | some (ColData.boolean v) => v.map (fun o => o == some true)
  | some (ColData.object v) => v.map (fun _ => false)
  | none => []

/-- `df_prepared = df_prepared[df_prepared['is_major_studio'] == 1].copy()`. -/
def filterRows (df : DataFrame) (mask : List Bool) : DataFrame :=
  ⟨(mask.filter (fun b => b)).length,
   df.cols.map (fun c => (c.1, maskCol mask c.2))⟩

/-- The effective exclusion list: the default (or supplied) list, with
`is_major_studio` appended when `drop_major_flag_from_features` is set. -/
def resolvedExclude (exclude_cols : Option (List String))
    (drop_major_flag_from_features : Bool) : List String :=
  (match exclude_cols with
   | none => DEFAULT_EXCLUDE_COLS
   | some l => l)
  ++ (if drop_major_flag_from_features then ["is_major_studio"] else [])

/-- The admission loop of model_utils.py:94-107: numeric dtype → feature;
bool dtype → feature; other (object) columns → feature iff at most 2
distinct non-missing values, otherwise recorded in `excluded_strings`
together with the first 5 distinct values. -/
def selectFeatures : List (String × ColData) → List String × List (String × List String)
  | [] => ([], [])
  | (name, d) :: rest =>
    let res := selectFeatures rest
    match d with
    | ColData.numeric _ => (name :: res.1, res.2)
    | ColData.boolean _ => (name :: res.1, res.2)
    | ColData.object vals =>
      let distinct := pdUnique (vals.filterMap id)
      if distinct.length ≤ 2 then (name :: res.1, res.2)
      else (res.1, (name, distinct.take 5) :: res.2)

/-- Embedding of `prepare_features`.  Besides the source's return triple
`(df_prepared, feature_cols, target)` the embedding also returns the
`excluded_strings` report that the source prints (the observational
side channel for excluded non-numeric columns). -/
def prepare_features (df : DataFrame) (target : String)
    (exclude_cols : Option (List String)) (filter_major_only : Bool)
    (drop_major_flag_from_features : Bool) :
    DataFrame × List String × String × List (String × List String) :=
  let df_prepared :=
    if filter_major_only && hasCol df "is_major_studio" then
      filterRows df (majorMask df)
    else df
  let exclude := resolvedExclude exclude_cols drop_major_flag_from_features
  let potential := df_prepared.cols.filter (fun c => !(exclude.contains c.1))
  let sel := selectFeatures potential
  (df_prepared, sel.1, target, sel.2)

/-- The admission predicate of the spec: numeric, boolean, or a non-numeric
column with at most 2 distinct non-missing values. -/
def admissible (d : ColData) : Prop :=
  (∃ v, d = ColData.numeric v) ∨ (∃ v, d = ColData.boolean v)
    ∨ (∃ vals a b, d = ColData.object vals
        ∧ ∀ s ∈ vals.filterMap id, s = a ∨ s = b)

theorem selectFeatures_mem_feats (l : List (String × ColData)) (c : String) :
    c ∈ (selectFeatures l).1 ↔ ∃ d, (c, d) ∈ l ∧ admissible d := by
  induction l with
  | nil => simp [selectFeatures]
  | cons hd rest ih =>
    rcases hd with ⟨name, d⟩
    cases d with
    | numeric v =>
      simp only [selectFeatures, List.mem_cons]
      constructor
      · rintro (rfl | hc)
        · exact ⟨ColData.numeric v, Or.inl rfl, Or.inl ⟨v, rfl⟩⟩
        · rcases ih.mp hc with ⟨d2, hd2, ha⟩
          exact ⟨d2, Or.inr hd2, ha⟩
      · rintro ⟨d2, hd2, ha⟩
        rcases hd2 with hd2 | hd2
        · obtain ⟨rfl, rfl⟩ := Prod.mk.inj hd2
          exact Or.inl rfl
        · exact Or.inr (ih.mpr ⟨d2, hd2, ha⟩)
    | boolean v =>
      simp only [selectFeatures, List.mem_cons]
      constructor
      · rintro (rfl | hc)
        · exact ⟨ColData.boolean v, Or.inl rfl, Or.inr (Or.inl ⟨v, rfl⟩)⟩
        · rcases ih.mp hc with ⟨d2, hd2, ha⟩
          exact ⟨d2, Or.inr hd2, ha⟩
      · rintro ⟨d2, hd2, ha⟩
        rcases hd2 with hd2 | hd2
        · obtain ⟨rfl, rfl⟩ := Prod.mk.inj hd2
          exact Or.inl rfl
        · exact Or.inr (ih.mpr ⟨d2, hd2, ha⟩)
    | object vals =>
      by_cases hdis : (pdUnique (vals.filterMap id)).length ≤ 2
      · have hadm : admissible (ColData.object vals) := by
          rcases (pdUnique_length_le_two_iff _).mp hdis with ⟨a, b, hab⟩
          exact Or.inr (Or.inr ⟨vals, a, b, rfl, hab⟩)
        simp only [selectFeatures, if_pos hdis, List.mem_cons]
        constructor
        · rintro (rfl | hc)
          · exact ⟨ColData.object vals, Or.inl rfl, hadm⟩
          · rcases ih.mp hc with ⟨d2, hd2, ha⟩
            exact ⟨d2, Or.inr hd2, ha⟩
        · rintro ⟨d2, hd2, ha⟩
          rcases hd2 with hd2 | hd2
          · obtain ⟨rfl, rfl⟩ := Prod.mk.inj hd2
            exact Or.inl rfl
          · exact Or.inr (ih.mpr ⟨d2, hd2, ha⟩)
      · have hadm : ¬ admissible (ColData.object vals) := by
          rintro (⟨v, hv⟩ | ⟨v, hv⟩ | ⟨vals2, a, b, hv, hab⟩)
          · cases hv
          · cases hv
          · cases hv
            exact hdis ((pdUnique_length_le_two_iff _).mpr ⟨a, b, hab⟩)
        simp only [selectFeatures, if_neg hdis]
        rw [ih]
        constructor
        · rintro ⟨d2, hd2, ha⟩
          exact ⟨d2, List.mem_cons_of_mem _ hd2, ha⟩
        · rintro ⟨d2, hd2, ha⟩
          rcases List.mem_cons.mp hd2 with hd2 | hd2
          · obtain ⟨rfl, rfl⟩ := Prod.mk.inj hd2
            exact absurd ha hadm
          · exact ⟨d2, hd2, ha⟩

theorem selectFeatures_mem_report (l : List (String × ColData)) (c : String) :
    (∃ s, (c, s) ∈ (selectFeatures l).2) ↔ ∃ d, (c, d) ∈ l ∧ ¬ admissible d := by
  induction l with
  | nil => simp [selectFeatures]
  | cons hd rest ih =>
    rcases hd with ⟨name, d⟩
    cases d with
    | numeric v =>
      simp only [selectFeatures]
      rw [ih]
      constructor
      · rintro ⟨d2, hd2, ha⟩
        exact ⟨d2, List.mem_cons_of_mem _ hd2, ha⟩
      · rintro ⟨d2, hd2, ha⟩
        rcases List.mem_cons.mp hd2 with hd2 | hd2
        · obtain ⟨rfl, rfl⟩ := Prod.mk.inj hd2
          exact absurd (Or.inl ⟨v, rfl⟩) ha
        · exact ⟨d2, hd2, ha⟩
    | boolean v =>
      simp only [selectFeatures]
      rw [ih]
      constructor
      · rintro ⟨d2, hd2, ha⟩
        exact ⟨d2, List.mem_cons_of_mem _ hd2, ha⟩
      · rintro ⟨d2, hd2, ha⟩
        rcases List.mem_cons.mp hd2 with hd2 | hd2
        · obtain ⟨rfl, rfl⟩ := Prod.mk.inj hd2
          exact absurd (Or.inr (Or.inl ⟨v, rfl⟩)) ha
        · exact ⟨d2, hd2, ha⟩
    | object vals =>
      by_cases hdis : (pdUnique (vals.filterMap id)).length ≤ 2
      · have hadm : admissible (ColData.object vals) := by
          rcases (pdUnique_length_le_two_iff _).mp hdis with ⟨a, b, hab⟩
          exact Or.inr (Or.inr ⟨vals, a, b, rfl, hab⟩)
        simp only [selectFeatures, if_pos hdis]
        rw [ih]
        constructor
        · rintro ⟨d2, hd2, ha⟩
          exact ⟨d2, List.mem_cons_of_mem _ hd2, ha⟩
        · rintro ⟨d2, hd2, ha⟩
          rcases List.mem_cons.mp hd2 with hd2 | hd2
          · obtain ⟨rfl, rfl⟩ := Prod.mk.inj hd2
            exact absurd hadm ha
          · exact ⟨d2, hd2, ha⟩
      · have hadm : ¬ admissible (ColData.object vals) := by
          rintro (⟨v, hv⟩ | ⟨v, hv⟩ | ⟨vals2, a, b, hv, hab⟩)
          · cases hv
          · cases hv
          · cases hv
            exact hdis ((pdUnique_length_le_two_iff _).mpr ⟨a, b, hab⟩)
        simp only [selectFeatures, if_neg hdis]
        constructor
        · rintro ⟨s, hs⟩
          rcases List.mem_cons.mp hs with heq | hmem
          · obtain ⟨rfl, rfl⟩ := Prod.mk.inj heq
            exact ⟨ColData.object vals, List.mem_cons_self _ _, hadm⟩
          · rcases ih.mp ⟨s, hmem⟩ with ⟨d2, hd2, ha⟩
            exact ⟨d2, List.mem_cons_of_mem _ hd2, ha⟩
        · rintro ⟨d2, hd2, ha⟩
          rcases List.mem_cons.mp hd2 with hd2 | hd2
          · obtain ⟨rfl, rfl⟩ := Prod.mk.inj hd2
            exact ⟨(pdUnique (vals.filterMap id)).take 5, List.mem_cons_self _ _⟩
          · rcases ih.mpr ⟨d2, hd2, ha⟩ with ⟨s, hs⟩
            exact ⟨s, List.mem_cons_of_mem _ hs⟩

theorem mem_potential_iff (cols : List (String × ColData)) (ex : List String)
    (c : String) (d : ColData) :
    (c, d) ∈ cols.filter (fun c2 => !(ex.contains c2.1))
      ↔ (c, d) ∈ cols ∧ ¬ c ∈ ex := by
  rw [List.mem_filter]
  have hb : (!(ex.contains c)) = true ↔ ¬ c ∈ ex := by
    rw [show ex.contains c = ex.elem c from rfl, List.elem_eq_mem]
    simp
  constructor
  · rintro ⟨h1, h2⟩
    exact ⟨h1, hb.mp h2⟩
  · rintro ⟨h1, h2⟩
    exact ⟨h1, hb.mpr h2⟩

/-- C7. `prepare_features` returns the target name unchanged; a column name
is in the returned feature list iff some column of the prepared frame bears
that name, the name is not excluded, and the column data is numeric, boolean,
or has at most two distinct non-missing values; and the excluded-strings
report contains exactly the non-excluded non-admissible columns. -/
theorem prepare_features_spec (df : DataFrame) (target : String)
    (exclude_cols : Option (List String)) (filter_major_only : Bool)
    (drop_major_flag_from_features : Bool) :
    ((prepare_features df target exclude_cols filter_major_only
        drop_major_flag_from_features).2.2.1 = target)
    ∧ (∀ c : String,
        c ∈ (prepare_features df target exclude_cols filter_major_only
              drop_major_flag_from_features).2.1
          ↔ ∃ d, (c, d) ∈ (prepare_features df target exclude_cols filter_major_only
                drop_major_flag_from_features).1.cols
              ∧ ¬ c ∈ resolvedExclude exclude_cols drop_major_flag_from_features
              ∧ admissible d)
    ∧ (∀ c : String,
        (∃ s, (c, s) ∈ (prepare_features df target exclude_cols filter_major_only
              drop_major_flag_from_features).2.2.2)
          ↔ ∃ d, (c, d) ∈ (prepare_features df target exclude_cols filter_major_only
                drop_major_flag_from_features).1.cols
              ∧ ¬ c ∈ resolvedExclude exclude_cols drop_major_flag_from_features
              ∧ ¬ admissible d) := by
  refine ⟨rfl, ?_, ?_⟩
  · intro c
    rw [show (prepare_features df target exclude_cols filter_major_only
        drop_major_flag_from_features).2.1
      = (selectFeatures (((prepare_features df target exclude_cols filter_major_only
          drop_major_flag_from_features).1).cols.filter
        (fun c2 => !((resolvedExclude exclude_cols
          drop_major_flag_from_features).contains c2.1)))).1 from rfl]
    rw [selectFeatures_mem_feats]
    constructor
    · rintro ⟨d, hd, ha⟩
      rcases (mem_potential_iff _ _ _ _).mp hd with ⟨h1, h2⟩
      exact ⟨d, h1, h2, ha⟩
    · rintro ⟨d, h1, h2, ha⟩
      exact ⟨d, (mem_potential_iff _ _ _ _).mpr ⟨h1, h2⟩, ha⟩
  · intro c
    rw [show (prepare_features df target exclude_cols filter_major_only
        drop_major_flag_from_features).2.2.2
      = (selectFeatures (((prepare_features df target exclude_cols filter_major_only
          drop_major_flag_from_features).1).cols.filter
        (fun c2 => !((resolvedExclude exclude_cols
          drop_major_flag_from_features).contains c2.1)))).2 from rfl]
    rw [selectFeatures_mem_report]
    constructor
    · rintro ⟨d, hd, ha⟩
      rcases (mem_potential_iff _ _ _ _).mp hd with ⟨h1, h2⟩
      exact ⟨d, h1, h2, ha⟩
    · rintro ⟨d, h1, h2, ha⟩
      exact ⟨d, (mem_potential_iff _ _ _ _).mpr ⟨h1, h2⟩, ha⟩

/-! ### Embedding of `create_sample_weights` (model_utils.py:130-141) -/

/-- `df[pandemic_flag].astype(bool)`: numpy truthiness per cell (a missing
value, i.e. NaN, is truthy under `astype(bool)`). -/
def astype_bool : ColData → List Bool
  | ColData.numeric v => v.map (fun o => match o with
      | some q => decide (q ≠ 0)
      | none => true)
  | ColData.boolean v => v.map (fun o => o.getD true)
  | ColData.object v => v.map (fun o => match o with
      | some s => decide (s ≠ "")
      | none => true)

/-- Embedding of `create_sample_weights`: a vector of ones, with the rows
where the flag column is truthy overwritten by `pandemic_weight`; when the
flag column is absent the vector of ones is returned unchanged. -/
def create_sample_weights (df : DataFrame) (pandemic_flag : String)
    (pandemic_weight : ℚ) : List ℚ :=
  let weights := List.replicate df.nrows (1 : ℚ)
  match getCol df pandemic_flag with
  | none => weights
  | some d =>
    List.zipWith (fun m wgt => if m then pandemic_weight else wgt)
      (astype_bool d) weights

theorem astype_bool_length (d : ColData) : (astype_bool d).length = colLen d := by
  cases d <;> simp [astype_bool, colLen]

theorem create_sample_weights_eq_none (df : DataFrame) (pandemic_flag : String)
    (pandemic_weight : ℚ) (h : getCol df pandemic_flag = none) :
    create_sample_weights df pandemic_flag pandemic_weight
      = List.replicate df.nrows 1 := by
  unfold create_sample_weights
  rw [h]

theorem create_sample_weights_eq_some (df : DataFrame) (pandemic_flag : String)
    (pandemic_weight : ℚ) (d : ColData) (h : getCol df pandemic_flag = some d) :
    create_sample_weights df pandemic_flag pandemic_weight
      = List.zipWith (fun m wgt => if m then pandemic_weight else wgt)
          (astype_bool d) (List.replicate df.nrows 1) := by
  unfold create_sample_weights
  rw [h]

theorem getCol_length (df : DataFrame) (name : String) (d : ColData)
    (hrect : ∀ c d2, (c, d2) ∈ df.cols → colLen d2 = df.nrows)
    (h : getCol df name = some d) : colLen d = df.nrows := by
  unfold getCol at h
  rcases Option.map_eq_some'.mp h with ⟨pair, hfind, hp2⟩
  have hmem := List.mem_of_find?_eq_some hfind
  have := hrect pair.1 pair.2 hmem
  rw [← hp2]
  exact this

/-- C8. On a rectangular frame, `create_sample_weights` returns a vector of
the same length as the frame whose entry at each row is the pandemic weight
exactly when the flag column is truthy there and `1.0` otherwise; when the
flag column is absent every entry is `1.0` (and, being a total function, it
raises nothing). -/
theorem create_sample_weights_spec (df : DataFrame) (pandemic_flag : String)
    (pandemic_weight : ℚ)
    (hrect : ∀ c d, (c, d) ∈ df.cols → colLen d = df.nrows) :
    (create_sample_weights df pandemic_flag pandemic_weight).length = df.nrows
    ∧ (∀ d, getCol df pandemic_flag = some d →
        ∀ i, i < df.nrows →
          (create_sample_weights df pandemic_flag pandemic_weight).getD i 1
            = if (astype_bool d).getD i false then pandemic_weight else 1)
    ∧ (getCol df pandemic_flag = none →
        create_sample_weights df pandemic_flag pandemic_weight
          = List.replicate df.nrows 1) := by
  have hlen_of : ∀ d, getCol df pandemic_flag = some d
      → (astype_bool d).length = df.nrows := by
    intro d hd
    rw [astype_bool_length]
    exact getCol_length df pandemic_flag d hrect hd
  refine ⟨?_, ?_, create_sample_weights_eq_none df pandemic_flag pandemic_weight⟩
  · cases hg : getCol df pandemic_flag with
    | none =>
      rw [create_sample_weights_eq_none df pandemic_flag pandemic_weight hg]
      exact List.length_replicate _ _
    | some d =>
      rw [create_sample_weights_eq_some df pandemic_flag pandemic_weight d hg,
        List.length_zipWith, List.length_replicate, hlen_of d hg]
      exact min_self _
  · intro d hd i hi
    rw [create_sample_weights_eq_some df pandemic_flag pandemic_weight d hd]
    have h1 : i < (astype_bool d).length := by
      rw [hlen_of d hd]
      exact hi
    have h2 : i < (List.replicate df.nrows (1 : ℚ)).length := by
      rw [List.length_replicate]
      exact hi
    have hz : i < (List.zipWith (fun m wgt => if m then pandemic_weight else wgt)
        (astype_bool d) (List.replicate df.nrows (1 : ℚ))).length := by
      rw [List.length_zipWith, hlen_of d hd, List.length_replicate]
      omega
    rw [List.getD_eq_getElem _ _ hz, List.getElem_zipWith,
      List.getD_eq_getElem _ _ h1, List.getElem_replicate]

theorem create_sample_weights_spec_witness :
    (create_sample_weights
        ⟨2, [("is_pandemic_year", ColData.boolean [some true, some false])]⟩
        "is_pandemic_year" (3 / 10)).length = 2
    ∧ (∀ d, getCol ⟨2, [("is_pandemic_year", ColData.boolean [some true, some false])]⟩
          "is_pandemic_year" = some d →
        ∀ i, i < 2 →
          (create_sample_weights
              ⟨2, [("is_pandemic_year", ColData.boolean [some true, some false])]⟩
              "is_pandemic_year" (3 / 10)).getD i 1
            = if (astype_bool d).getD i false then 3 / 10 else 1)
    ∧ (getCol ⟨2, [("is_pandemic_year", ColData.boolean [some true, some false])]⟩
          "is_pandemic_year" = none →
        create_sample_weights
            ⟨2, [("is_pandemic_year", ColData.boolean [some true, some false])]⟩
            "is_pandemic_year" (3 / 10)
          = List.replicate 2 1) :=
  create_sample_weights_spec
    ⟨2, [("is_pandemic_year", ColData.boolean [some true, some false])]⟩
    "is_pandemic_year" (3 / 10)
    (by
      intro c d hmem
      rcases List.mem_cons.mp hmem with heq | hmem2
      · obtain ⟨rfl, rfl⟩ := Prod.mk.inj heq
        rfl
      · simp at hmem2)
